import Mathlib

/-!
Shallow embedding of the DVB subtitle pipeline of `src/dvbsub.js`
(classes `DVBSubDecoder` and `TSSubtitleExtractor`), together with
theorems settling the claims about it.

Byte buffers are `List Nat`; an in-bounds JS `Uint8Array` read `data[i]`
becomes `data.getD i 0`.  The guards of the source make every read that
feeds an arithmetic result in-bounds on the inputs the theorems quantify
over; a JS out-of-bounds read yields `undefined`, which coerces to `0`
inside the bitwise operators used here, matching `getD _ 0`.
-/

namespace DVBSub

/-- JS `ToInt32`: a bit pattern, taken mod 2^32, read as a signed 32-bit
integer.  Every result of a JS bitwise operator (`<<`, `|`, `&`, `>>`)
goes through this conversion. -/
def jsInt32 (n : Nat) : Int :=
  if n % 4294967296 < 2147483648 then ((n % 4294967296 : Nat) : Int)
  else ((n % 4294967296 : Nat) : Int) - 4294967296

/-! ### TSSubtitleExtractor.parse (src/dvbsub.js lines 628-641) -/

/-- `TSSubtitleExtractor.parse`: scan a buffer for sync byte 0x47, handing
each 188-byte packet to `parsePacket` and skipping one byte on mismatch.
The JS loop runs `while (offset < data.length - 188)`, i.e. while strictly
more than 188 bytes remain past the cursor; we model the cursor by the
suffix of the buffer that starts at it and return the list of packets
handed on.  -/
def tsParse (data : List Nat) : List (List Nat) :=
  if _h : 188 < data.length then
    if data.getD 0 0 = 0x47 then
      (data.take 188) :: tsParse (data.drop 188)
    else tsParse (data.drop 1)
  else []
termination_by data.length
decreasing_by
  · simp only [List.length_drop]; omega
  · simp only [List.length_drop]; omega

/-! ### TSSubtitleExtractor.parsePAT (src/dvbsub.js lines 679-699) -/

/-- Program-entry loop of `parsePAT`: `while (offset < data.length - 4)`
read a 4-byte entry `(program_number, pid)` and, whenever the program
number is nonzero, overwrite `pmtPID` with the entry's PID.  The
condition `offset < data.length - 4` holds exactly when at least five
bytes remain, hence the first pattern. -/
def patLoop : List Nat → Option Nat → Option Nat
  | b0 :: b1 :: b2 :: b3 :: b4 :: rest, pmt =>
    let programNumber := (b0 <<< 8) ||| b1
    let pid := ((b2 &&& 0x1F) <<< 8) ||| b3
    patLoop (b4 :: rest) (if programNumber ≠ 0 then some pid else pmt)
  | _, pmt => pmt

/-- `TSSubtitleExtractor.parsePAT`: skip the pointer field, bail out when
fewer than eight bytes follow, then skip the 8 section-header bytes and
run the program-entry loop.  Returns the updated `pmtPID`. -/
def parsePAT (data : List Nat) (pmtPID : Option Nat) : Option Nat :=
  let offset := data.getD 0 0 + 1
  if offset + 8 > data.length then pmtPID
  else patLoop (data.drop (offset + 8)) pmtPID

/-! ### TSSubtitleExtractor.parsePMT (src/dvbsub.js lines 701-749) -/

/-- Descriptor scan of `parsePMT` for one elementary stream:
`while (descOffset < descEnd && descOffset < data.length - 2)` read a
`(tag, length)` pair and add the stream's PID to the subtitle PID set
when the tag is 0x59.  `pos` is the cursor relative to the start of the
stream entry, `rem` the bytes from the stream entry on. -/
def pmtDescLoop (rem : List Nat) (pid : Nat) : Nat → Nat → Finset Nat → Finset Nat
  | pos, descEnd, acc =>
    if h : pos < descEnd ∧ pos + 2 < rem.length then
      let descTag := rem.getD pos 0
      let descLen := rem.getD (pos + 1) 0
      let acc' := if descTag = 0x59 then insert pid acc else acc
      pmtDescLoop rem pid (pos + 2 + descLen) descEnd acc'
    else acc
termination_by pos descEnd => descEnd - pos
decreasing_by omega

/-- Elementary-stream loop of `parsePMT`: `while (offset < data.length - 5)`
read stream type, elementary PID and ES-info length; for stream types
0x06, 0x59 and ≥ 0x90 scan the descriptor loop; then advance past the
ES-info bytes. -/
def pmtStreamLoop : List Nat → Finset Nat → Finset Nat
  | rem, acc =>
    if h : 5 < rem.length then
      let streamType := rem.getD 0 0
      let elementaryPID := ((rem.getD 1 0 &&& 0x1F) <<< 8) ||| rem.getD 2 0
      let esInfoLength := ((rem.getD 3 0 &&& 0x0F) <<< 8) ||| rem.getD 4 0
      let acc' :=
        if streamType = 0x06 ∨ streamType = 0x59 ∨ 0x90 ≤ streamType then
          pmtDescLoop rem elementaryPID 5 (5 + esInfoLength) acc
        else acc
      pmtStreamLoop (rem.drop (5 + esInfoLength)) acc'
    else acc
termination_by rem => rem.length
decreasing_by simp only [List.length_drop]; omega

/-- `TSSubtitleExtractor.parsePMT`: skip pointer field, bail out when fewer
than twelve bytes follow, read `program_info_length` at offsets 10-11 of
the section, skip it, and run the stream loop.  `acc` is the extractor's
`subtitlePIDs` set; the function returns the updated set. -/
def parsePMT (data : List Nat) (acc : Finset Nat) : Finset Nat :=
  let offset := data.getD 0 0 + 1
  if offset + 12 > data.length then acc
  else
    let programInfoLength :=
      ((data.getD (offset + 10) 0 &&& 0x0F) <<< 8) ||| data.getD (offset + 11) 0
    pmtStreamLoop (data.drop (offset + 12 + programInfoLength)) acc

/-! ### TSSubtitleExtractor.collectPES / emitPES (src/dvbsub.js lines 751-800) -/

/-- One per-PID PES accumulator (`pesBuffers` entry): collected bytes and
the timestamp parsed from the unit's starting packet. -/
structure PESBuf where
  data : List Nat
  pts : Int
deriving DecidableEq

/-- PTS reconstruction of `collectPES`: when PTS-flags bit 0x02 is set,
`((payload[9] & 0x0E) << 29) | (payload[10] << 22) | ((payload[11] & 0xFE) << 14)
| (payload[12] << 7) | ((payload[13] & 0xFE) >> 1)` evaluated with JS
32-bit signed bitwise semantics: the first shift's bit pattern is its
value mod 2^32, the other operands are below 2^31 for byte inputs, and
the whole `|`-chain is finally read back as a signed 32-bit integer. -/
def pesPTS (payload : List Nat) : Int :=
  let ptsFlags := (payload.getD 7 0 >>> 6) &&& 0x03
  if ptsFlags &&& 0x02 ≠ 0 then
    jsInt32 (((((payload.getD 9 0 &&& 0x0E) <<< 29) % 4294967296) |||
      (payload.getD 10 0 <<< 22) |||
      ((payload.getD 11 0 &&& 0xFE) <<< 14) |||
      (payload.getD 12 0 <<< 7) |||
      ((payload.getD 13 0 &&& 0xFE) >>> 1)))
  else 0

/-- `TSSubtitleExtractor.collectPES` for one PID's accumulator.  On a
payload-unit-start packet, flush the accumulator through `emitPES`
(which emits `(pts, data)` only when `data` is non-empty and resets the
buffer), then, when the payload carries the `00 00 01` PES start prefix
and is longer than nine bytes, parse the header: the timestamp via
`pesPTS` and the unit data from byte `9 + header_data_length` on.  On a
continuation packet append the whole payload.  Returns the new buffer
and the flushed unit, if any. -/
def collectPES (buf : PESBuf) (payload : List Nat) (start : Bool) :
    PESBuf × Option (Int × List Nat) :=
  if start then
    let flushed := if buf.data ≠ [] then some (buf.pts, buf.data) else none
    let buf1 : PESBuf := if buf.data ≠ [] then ⟨[], 0⟩ else buf
    if 9 < payload.length ∧ payload.getD 0 0 = 0 ∧ payload.getD 1 0 = 0 ∧
        payload.getD 2 0 = 1 then
      let headerDataLength := payload.getD 8 0
      (⟨payload.drop (9 + headerDataLength), pesPTS payload⟩, flushed)
    else (buf1, flushed)
  else (⟨buf.data ++ payload, buf.pts⟩, none)

/-- Feed a sequence of `(payload, payload_unit_start)` packets of one PID
through `collectPES`, collecting the emitted `(pts, data)` units in
order. -/
def runCollect (buf : PESBuf) : List (List Nat × Bool) → PESBuf × List (Int × List Nat)
  | [] => (buf, [])
  | (p, s) :: rest =>
    let step := collectPES buf p s
    let tail := runCollect step.1 rest
    (tail.1, step.2.toList ++ tail.2)

/-- Standard PES timestamp encoding of a 33-bit value `v` into the five
header bytes at payload offsets 9-13: bits 32..30 in byte 9 (bits 3..1,
under the `0010` prefix and a marker bit), bits 29..22 in byte 10, bits
21..15 in byte 11 (bits 7..1, marker bit 0), bits 14..7 in byte 12, bits
6..0 in byte 13 (bits 7..1, marker bit 0). -/
def ptsBytes (v : Nat) : List Nat :=
  [0x21 ||| (((v >>> 30) &&& 0x07) <<< 1),
   (v >>> 22) &&& 0xFF,
   (((v >>> 15) &&& 0x7F) <<< 1) ||| 0x01,
   (v >>> 7) &&& 0xFF,
   ((v &&& 0x7F) <<< 1) ||| 0x01]

/-! ### Serialized PAT / PMT sections

The claims quantify over valid PAT/PMT sections; we represent a section
abstractly and serialize it to the byte layout the parser consumes:
pointer field 0, the fixed section header, the payload loop, and the four
CRC bytes.  Header bytes the parser never interprets are an arbitrary
parameter. -/

/-- One program entry of a PAT: 16-bit program number, 13-bit PMT PID. -/
structure PATEntry where
  progNum : Nat
  pid : Nat

/-- Byte layout of a PAT program entry: program number hi/lo, then the
PID's high five bits under reserved bits 0xE0, then the PID's low byte. -/
def serPATEntry (e : PATEntry) : List Nat :=
  [e.progNum >>> 8, e.progNum &&& 0xFF, 0xE0 ||| (e.pid >>> 8), e.pid &&& 0xFF]

/-- Byte layout of a PAT section as `parsePAT` receives it: pointer field
0, the 8 section-header bytes `hdr` (table id, section length, transport
stream id, version, section number, last section number), the program
entries, and the 4 CRC bytes `crc`. -/
def serPAT (hdr : List Nat) (entries : List PATEntry) (crc : List Nat) : List Nat :=
  (0 :: hdr) ++ ((entries.map serPATEntry).flatten ++ crc)

/-- One descriptor of a PMT elementary-stream descriptor loop. -/
structure PMTDesc where
  tag : Nat
  body : List Nat

/-- One elementary stream of a PMT: stream type byte, 13-bit elementary
PID, descriptor loop. -/
structure PMTStream where
  streamType : Nat
  pid : Nat
  descs : List PMTDesc

/-- Byte layout of a descriptor: tag, length, body. -/
def serDesc (d : PMTDesc) : List Nat := d.tag :: d.body.length :: d.body

/-- Byte layout of a PMT elementary-stream entry: stream type, PID under
reserved bits 0xE0, ES-info length under reserved bits 0xF0, then the
serialized descriptor loop. -/
def serStream (s : PMTStream) : List Nat :=
  let es := (s.descs.map serDesc).flatten
  s.streamType :: (0xE0 ||| (s.pid >>> 8)) :: (s.pid &&& 0xFF) ::
    (0xF0 ||| (es.length >>> 8)) :: (es.length &&& 0xFF) :: es

/-- Byte layout of a PMT section as `parsePMT` receives it: pointer field
0, the 10 header bytes `hdr` (table id, section length, program number,
version, section number, last section number, PCR PID), the
program-info length under reserved bits 0xF0, the program-info bytes,
the elementary-stream loop, and the 4 CRC bytes. -/
def serPMT (hdr progInfo : List Nat) (streams : List PMTStream) (crc : List Nat) :
    List Nat :=
  (0 :: hdr) ++ ((0xF0 ||| (progInfo.length >>> 8)) :: (progInfo.length &&& 0xFF) ::
    (progInfo ++ ((streams.map serStream).flatten ++ crc)))

/-! ### DVBSubDecoder.decode segment scan (src/dvbsub.js lines 112-171) -/

/-- Declared segment length of the segment header at `offset`:
`(data[offset+4] << 8) | data[offset+5]`. -/
def segLength (data : List Nat) (offset : Nat) : Nat :=
  ((data.getD (offset + 4) 0) <<< 8) ||| data.getD (offset + 5) 0

/-- One iteration of the segment-scan loop of `DVBSubDecoder.decode`:
while `offset < data.length - 6`, a non-sync byte advances the cursor by
one; a sync byte 0x0F consumes the 6-byte header and the declared
segment body, unless the declared length overruns the data, which breaks
the loop.  Returns the next cursor, or `none` when the loop stops. -/
def decodeStep (data : List Nat) (offset : Nat) : Option Nat :=
  if offset + 6 < data.length then
    if data.getD offset 0 ≠ 0x0F then some (offset + 1)
    else if data.length < offset + 6 + segLength data offset then none
    else some (offset + 6 + segLength data offset)
  else none

/-- Initial cursor of `decode`: skip the two identifier bytes when the
first byte is the DVB subtitle data identifier 0x20 or legacy 0x00. -/
def decodeInit (data : List Nat) : Nat :=
  if data.getD 0 0 = 0x20 ∨ data.getD 0 0 = 0x00 then 2 else 0

/-- The cursor positions visited by the segment-scan loop.  This function
is total: its termination proof is exactly the argument of claim C9 (the
next offset strictly exceeds the previous one and never exceeds the data
length). -/
def decodeOffsets (data : List Nat) (offset : Nat) : List Nat :=
  match h : decodeStep data offset with
  | none => [offset]
  | some o2 => offset :: decodeOffsets data o2
termination_by data.length - offset
decreasing_by
  simp only [decodeStep] at h
  split_ifs at h with h1 h2 h3 <;> simp_all <;> omega

/-! ### DVBSubDecoder pixel decoding (src/dvbsub.js lines 418-467) -/

/-- One RGBA color entry. -/
structure Pixel where
  r : Nat
  g : Nat
  b : Nat
  a : Nat
deriving DecidableEq

/-- The decoder's built-in 4-entry CLUT: transparent, white, black,
gray. -/
def defaultClut : List Pixel :=
  [⟨0, 0, 0, 0⟩, ⟨255, 255, 255, 255⟩, ⟨0, 0, 0, 255⟩, ⟨128, 128, 128, 255⟩]

/-- `clut[byte] || clut[0]` of `decodeField`: an out-of-range CLUT index
falls back to entry 0 (an empty CLUT, which the decoder never produces,
falls back to a transparent pixel). -/
def clutLookup (clut : List Pixel) (b : Nat) : Pixel :=
  clut.getD b (clut.getD 0 ⟨0, 0, 0, 0⟩)

/-- The loop of `DVBSubDecoder.decodeField`, instrumented with the list
of pixel-buffer indices it stores to: while bytes remain and `y` is
below `height`, byte 0x00 moves to the start of the next output row of
the field (`x := 0`, `y += 2`); any other byte is one pixel, stored at
`y*width + x` under the guard `x < width && y < height`, after which `x`
advances.  The second component records exactly the indices of the
guarded stores. -/
def decodeFieldGo (clut : List Pixel) (width height : Nat) :
    List Nat → List Pixel → Nat → Nat → List Pixel × List Nat
  | [], pixels, _, _ => (pixels, [])
  | b :: rest, pixels, x, y =>
    if height ≤ y then (pixels, [])
    else if b = 0 then decodeFieldGo clut width height rest pixels 0 (y + 2)
    else
      let color := clutLookup clut b
      if x < width ∧ y < height then
        let next := decodeFieldGo clut width height rest
          (pixels.set (y * width + x) color) (x + 1) y
        (next.1, (y * width + x) :: next.2)
      else decodeFieldGo clut width height rest pixels (x + 1) y

/-- `DVBSubDecoder.decodeField`: run the loop from `x = 0`,
`y = fieldOffset` and return the updated pixel buffer. -/
def decodeField (clut : List Pixel) (width height : Nat) (data : List Nat)
    (pixels : List Pixel) (fieldOffset : Nat) : List Pixel :=
  (decodeFieldGo clut width height data pixels 0 fieldOffset).1

/-! ### DVBSubDecoder rendering (src/dvbsub.js lines 334-506)

A canvas is its pixel grid in row-major order; `trimCanvas` and the
claims about rendering inspect only the alpha channel, exactly as the
source reads `imageData.data[(y*width+x)*4 + 3]`. -/

/-- A 2D canvas: width, height and the row-major pixel data. -/
structure Canvas where
  width : Nat
  height : Nat
  data : List Pixel
deriving DecidableEq

/-- The bounding-box accumulator of `trimCanvas`'s scan:
`minX, minY, maxX, maxY`. -/
structure Bounds where
  minX : Nat
  minY : Nat
  maxX : Nat
  maxY : Nat
deriving DecidableEq

/-- Pixel read at `(x, y)`. -/
def pixelAt (cv : Canvas) (x y : Nat) : Pixel :=
  cv.data.getD (y * cv.width + x) ⟨0, 0, 0, 0⟩

/-- The scan of `trimCanvas`: starting from
`minX = width, minY = height, maxX = 0, maxY = 0`, visit every pixel in
row-major order and absorb each pixel with alpha > 0 into the bounds. -/
def computeBounds (cv : Canvas) : Bounds :=
  (List.range cv.height).foldl (fun b y =>
    (List.range cv.width).foldl (fun b2 x =>
      if 0 < (pixelAt cv x y).a then
        ⟨min b2.minX x, min b2.minY y, max b2.maxX x, max b2.maxY y⟩
      else b2) b)
    ⟨cv.width, cv.height, 0, 0⟩

/-- The pixel rectangle `[minX, minX+tw) × [minY, minY+th)` of a canvas,
row-major — the `drawImage` source-rectangle copy of `trimCanvas`. -/
def cropData (cv : Canvas) (minX minY tw th : Nat) : List Pixel :=
  ((List.range th).map (fun ry =>
    (List.range tw).map (fun rx => pixelAt cv (minX + rx) (minY + ry)))).flatten

/-- `DVBSubDecoder.trimCanvas`: scan the bounds; when
`maxX <= minX || maxY <= minY` return the **original** canvas with
origin (0,0); otherwise return the cropped canvas of size
`(maxX-minX+1) × (maxY-minY+1)` and the crop origin. -/
def trimCanvas (cv : Canvas) : Canvas × Nat × Nat :=
  let b := computeBounds cv
  if b.maxX ≤ b.minX ∨ b.maxY ≤ b.minY then (cv, 0, 0)
  else
    let trimmedWidth := b.maxX - b.minX + 1
    let trimmedHeight := b.maxY - b.minY + 1
    (⟨trimmedWidth, trimmedHeight, cropData cv b.minX b.minY trimmedWidth trimmedHeight⟩,
      b.minX, b.minY)

/-- Source-over compositing of one source pixel onto one destination
pixel (the `ctx.drawImage` blend), in integer arithmetic.  The alpha
equation `a = sa + da*(255-sa)/255` is what the claims depend on: the
result is transparent exactly when both inputs are. -/
def overPix (s d : Pixel) : Pixel :=
  let a := s.a + d.a * (255 - s.a) / 255
  if a = 0 then ⟨0, 0, 0, 0⟩
  else ⟨(s.r * s.a + d.r * d.a * (255 - s.a) / 255) / a,
        (s.g * s.a + d.g * d.a * (255 - s.a) / 255) / a,
        (s.b * s.a + d.b * d.a * (255 - s.a) / 255) / a, a⟩

/-- `ctx.drawImage(tempCanvas, x, y)`: composite a `w × h` pixel block
onto the canvas at `(x, y)` with source-over blending, clipped to the
canvas. -/
def drawImage (cv : Canvas) (x y w h : Nat) (src : List Pixel) : Canvas :=
  (List.range h).foldl (fun cv1 sy =>
    (List.range w).foldl (fun cv2 sx =>
      if x + sx < cv2.width ∧ y + sy < cv2.height then
        let idx := (y + sy) * cv2.width + (x + sx)
        let blended := overPix (src.getD (sy * w + sx) ⟨0, 0, 0, 0⟩)
          (cv2.data.getD idx ⟨0, 0, 0, 0⟩)
        { cv2 with data := cv2.data.set idx blended }
      else cv2) cv1) cv

/-- A parsed object-data segment as `renderPage` consumes it. -/
structure DVBObject where
  codingMethod : Nat
  topFieldData : Option (List Nat)
  bottomFieldData : Option (List Nat)
deriving DecidableEq

/-- One object placement inside a region composition. -/
structure RegionObject where
  id : Nat
  type : Nat
  x : Nat
  y : Nat
deriving DecidableEq

/-- A parsed region composition segment. -/
structure Region where
  width : Nat
  height : Nat
  depth : Nat
  clutId : Nat
  bgPixel : Nat
  objects : List RegionObject
deriving DecidableEq

/-- One region placement inside a page composition. -/
structure PageRegion where
  id : Nat
  x : Nat
  y : Nat
deriving DecidableEq

/-- A parsed page composition segment. -/
structure Page where
  timeout : Nat
  state : Nat
  pts : Int
  regions : List PageRegion
deriving DecidableEq

/-- The decoder's segment state: the four id-keyed maps, as association
lists (`Map.get` becomes `List.lookup`). -/
structure DecState where
  pages : List (Nat × Page)
  regions : List (Nat × Region)
  cluts : List (Nat × List Pixel)
  objects : List (Nat × DVBObject)

/-- `DVBSubDecoder.decodePixelData`: fill the region-sized buffer with
`clut[region.bgPixel] || transparent`, decode the top field into the
even rows, then the bottom field into the odd rows — or mirror the top
field when the bottom field is empty. -/
def decodePixelData (object : DVBObject) (region : Region) (clut : List Pixel) :
    List Pixel :=
  let pixels := List.replicate (region.width * region.height)
    (clut.getD region.bgPixel ⟨0, 0, 0, 0⟩)
  let pixels1 :=
    match object.topFieldData with
    | some tf => decodeField clut region.width region.height tf pixels 0
    | none => pixels
  match object.bottomFieldData with
  | some bf =>
    if bf ≠ [] then decodeField clut region.width region.height bf pixels1 1
    else
      match object.topFieldData with
      | some tf => decodeField clut region.width region.height tf pixels1 1
      | none => pixels1
  | none =>
    match object.topFieldData with
    | some tf => decodeField clut region.width region.height tf pixels1 1
    | none => pixels1

/-- The region/object loop of `DVBSubDecoder.renderPage`: over a fresh
transparent 720×576 canvas, for every region placement of the page look
up the region, its CLUT (default on miss), and each placed object; any
object carrying top-field pixel data is decoded and drawn at
`(pageRegion.x + object.x, pageRegion.y + object.y)` and sets
`hasContent`.  Drawing goes through
`ctx.createImageData(region.width, region.height)`, which throws
`IndexSizeError` when either dimension is zero; the exception aborts the
whole render (it is caught in `decode`), modelled as `Except.error ()`,
which every later fold step propagates.  On success the result is the
composited canvas and the `hasContent` flag. -/
def renderRegions (st : DecState) (page : Page) : Except Unit (Canvas × Bool) :=
  page.regions.foldl (fun acc pr =>
    match acc with
    | Except.error e => Except.error e
    | Except.ok a =>
      match st.regions.lookup pr.id with
      | none => Except.ok a
      | some region =>
        let clut := (st.cluts.lookup region.clutId).getD defaultClut
        region.objects.foldl (fun acc2 ro =>
          match acc2 with
          | Except.error e => Except.error e
          | Except.ok a2 =>
            match st.objects.lookup ro.id with
            | none => Except.ok a2
            | some object =>
              match object.topFieldData with
              | none => Except.ok a2
              | some _ =>
                let pixels := decodePixelData object region clut
                if region.width = 0 ∨ region.height = 0 then Except.error ()
                else Except.ok (drawImage a2.1 (pr.x + ro.x) (pr.y + ro.y)
                  region.width region.height pixels, true))
          (Except.ok a))
    (Except.ok (⟨720, 576, List.replicate (720 * 576) ⟨0, 0, 0, 0⟩⟩, false))

/-- The bitmap event `renderPage` hands to `onBitmap`: the trimmed canvas
and the presentation timestamp (width, height and display time are
derived fields of these). -/
structure BitmapEvent where
  canvas : Canvas
  pts : Int
deriving DecidableEq

/-- `DVBSubDecoder.renderPage`: look up the page (no-op when absent or
without regions), composite the regions — an `IndexSizeError` thrown
there propagates out of `renderPage` (`Except.error`; `decode` catches
it) and no event fires — otherwise bail out when no object contributed
pixel data, or trim the canvas and emit the bitmap event. -/
def renderPage (st : DecState) (pageId : Nat) (pts : Int) :
    Except Unit (Option BitmapEvent) :=
  match st.pages.lookup pageId with
  | none => Except.ok none
  | some page =>
    if page.regions = [] then Except.ok none
    else
      match renderRegions st page with
      | Except.error e => Except.error e
      | Except.ok res =>
        if res.2 = false then Except.ok none
        else Except.ok (some ⟨(trimCanvas res.1).1, pts⟩)

/-- Decidable test: every pixel of the canvas has alpha 0. -/
def allTransparent (cv : Canvas) : Bool :=
  cv.data.all (fun p => p.a == 0)

/-- Example page for the rendering claims: one region placement,
region 1 at (0, 0). -/
def page4 : Page := ⟨0, 0, 0, [⟨1, 0, 0⟩]⟩

/-- Example decoder state: page 1 places region 1, a 2×2 region with an
absent CLUT id 9 (so the 4-entry default applies) and background pixel
code 0 (transparent); object 7 carries top-field byte 5, a CLUT index
beyond the default table, which resolves to the transparent entry 0.
Every decoded pixel is therefore fully transparent although the object
contributes pixel data. -/
def st4 : DecState :=
  ⟨[(1, page4)],
   [(1, ⟨2, 2, 0, 9, 0, [⟨7, 0, 0, 0⟩]⟩)],
   [],
   [(7, ⟨0, some [5], none⟩)]⟩

/-- The canvas `renderRegions` composites in state `st4`: object 7's
fully transparent 2×2 pixel block drawn at (0, 0) on the fresh 720×576
canvas. -/
def canvas4 : Canvas :=
  drawImage ⟨720, 576, List.replicate (720 * 576) ⟨0, 0, 0, 0⟩⟩ 0 0 2 2
    (decodePixelData ⟨0, some [5], none⟩ ⟨2, 2, 0, 9, 0, [⟨7, 0, 0, 0⟩]⟩ defaultClut)

/-- Example decoder state like `st4` but with a zero-**width** region:
`hasContent` is reached, then `createImageData(0, 2)` throws and the
render aborts without emitting. -/
def st0 : DecState :=
  ⟨[(1, page4)],
   [(1, ⟨0, 2, 0, 9, 0, [⟨7, 0, 0, 0⟩]⟩)],
   [],
   [(7, ⟨0, some [5], none⟩)]⟩

/-- Example canvas for the trimming claims: 3×3, single opaque pixel at
(1, 1). -/
def cv5 : Canvas :=
  ⟨3, 3, [⟨0, 0, 0, 0⟩, ⟨0, 0, 0, 0⟩, ⟨0, 0, 0, 0⟩,
          ⟨0, 0, 0, 0⟩, ⟨255, 255, 255, 255⟩, ⟨0, 0, 0, 0⟩,
          ⟨0, 0, 0, 0⟩, ⟨0, 0, 0, 0⟩, ⟨0, 0, 0, 0⟩]⟩

/-- Example canvas: 2×2 with opaque corners (0,0) and (1,1), so the
occupied bounding box spans the whole canvas. -/
def cv5w : Canvas :=
  ⟨2, 2, [⟨255, 255, 255, 255⟩, ⟨0, 0, 0, 0⟩,
          ⟨0, 0, 0, 0⟩, ⟨255, 255, 255, 255⟩]⟩

/-! ### Recognition pipeline (src/dvbsub.js lines 59-89, 508-563)

`queueOCR` / `processOCRQueue` / `initTesseract` run on the JS event
loop: handlers execute atomically between `await` points.  The states
between awaits and the three kinds of handler activations form a labeled
transition system: `enqueue i` is `queueOCR` (push + `processOCRQueue`),
`ready` is `initTesseract` completing (sets `tesseractReady`, then
`processOCRQueue`), and `complete ok` is the `await recognize` of the
current in-flight item resolving (`ok` = success with non-empty text),
after which the drain loop either shifts the next item or clears
`processing`.  Items are identified by Nat ids standing for the queued
bitmaps in enqueue order. -/

/-- An event of the recognition pipeline's event loop. -/
inductive OCREvent where
  | enqueue (i : Nat)
  | ready
  | complete (ok : Bool)

/-- State of the recognition pipeline between event-loop turns: the
pending FIFO queue, the `processing` flag, the `tesseractReady` flag,
the item awaited by the single in-flight `recognize` call, and the
subtitle events emitted so far, in order. -/
structure OCRSt where
  queue : List Nat
  processing : Bool
  tReady : Bool
  inFlight : Option Nat
  emitted : List Nat

/-- `processOCRQueue` up to its first `await`: bail out when already
processing, the engine is not ready, or the queue is empty; otherwise
set `processing` and shift the first item into the in-flight
recognition. -/
def tryStart (s : OCRSt) : OCRSt :=
  if s.processing ∨ s.tReady = false ∨ s.queue = [] then s
  else
    match s.queue with
    | [] => s
    | i :: rest => { s with processing := true, queue := rest, inFlight := some i }

/-- One event-loop turn of the recognition pipeline. -/
def ocrStep (s : OCRSt) (e : OCREvent) : OCRSt :=
  match e with
  | .enqueue i => tryStart { s with queue := s.queue ++ [i] }
  | .ready => tryStart { s with tReady := true }
  | .complete ok =>
    match s.inFlight with
    | none => s
    | some i =>
      let s1 := { s with emitted := if ok then s.emitted ++ [i] else s.emitted }
      match s1.queue with
      | [] => { s1 with inFlight := none, processing := false }
      | j :: rest => { s1 with inFlight := some j, queue := rest }

/-- Run the pipeline from a state over an event sequence. -/
def runOCR (s : OCRSt) (evs : List OCREvent) : OCRSt :=
  evs.foldl ocrStep s

/-- The fresh pipeline state. -/
def initOCR : OCRSt := ⟨[], false, false, none, []⟩

/-- The items enqueued by an event sequence, in order. -/
def enqueuedOf (evs : List OCREvent) : List Nat :=
  evs.filterMap (fun e => match e with | .enqueue i => some i | _ => none)

/-! ## Helper lemmas -/

theorem getD_drop (l : List Nat) (m i : Nat) :
    (l.drop m).getD i 0 = l.getD (m + i) 0 := by
  simp [List.getD_eq_getElem?_getD, List.getElem?_drop]

theorem or_hi_lo (x : Nat) : ((x >>> 8) <<< 8) ||| (x &&& 0xFF) = x := by
  have hm : (0xFF : Nat) = 2 ^ 8 - 1 := by norm_num
  rw [Nat.shiftRight_eq_div_pow, Nat.shiftLeft_eq, hm,
    Nat.and_pow_two_sub_one_eq_mod, Nat.mul_comm,
    ← Nat.mul_add_lt_is_or (Nat.mod_lt _ (by norm_num)) (x / 2 ^ 8)]
  omega

theorem reserved5_and (x : Nat) (h : x < 8192) :
    (0xE0 ||| (x >>> 8)) &&& 0x1F = x >>> 8 := by
  have hr : x >>> 8 < 2 ^ 5 := by rw [Nat.shiftRight_eq_div_pow]; omega
  have h224 : (0xE0 : Nat) ||| (x >>> 8) = 224 + (x >>> 8) := by
    have := Nat.mul_add_lt_is_or hr 7
    norm_num at this
    omega
  have hm : (0x1F : Nat) = 2 ^ 5 - 1 := by norm_num
  rw [h224, hm, Nat.and_pow_two_sub_one_eq_mod]
  omega

theorem reserved4_and (x : Nat) (h : x < 4096) :
    (0xF0 ||| (x >>> 8)) &&& 0x0F = x >>> 8 := by
  have hr : x >>> 8 < 2 ^ 4 := by rw [Nat.shiftRight_eq_div_pow]; omega
  have h240 : (0xF0 : Nat) ||| (x >>> 8) = 240 + (x >>> 8) := by
    have := Nat.mul_add_lt_is_or hr 15
    norm_num at this
    omega
  have hm : (0x0F : Nat) = 2 ^ 4 - 1 := by norm_num
  rw [h240, hm, Nat.and_pow_two_sub_one_eq_mod]
  omega

theorem pid_recover (x : Nat) (h : x < 8192) :
    (((0xE0 ||| (x >>> 8)) &&& 0x1F) <<< 8) ||| (x &&& 0xFF) = x := by
  rw [reserved5_and x h, or_hi_lo]

theorem len_recover (x : Nat) (h : x < 4096) :
    (((0xF0 ||| (x >>> 8)) &&& 0x0F) <<< 8) ||| (x &&& 0xFF) = x := by
  rw [reserved4_and x h, or_hi_lo]

theorem patLoop_short (l : List Nat) (pmt : Option Nat) (h : l.length ≤ 4) :
    patLoop l pmt = pmt := by
  match l with
  | [] => rfl
  | [_] => rfl
  | [_, _] => rfl
  | [_, _, _] => rfl
  | [_, _, _, _] => rfl
  | _ :: _ :: _ :: _ :: _ :: _ => simp at h

theorem patLoop_ser (entries : List PATEntry) (tail : List Nat) (pmt : Option Nat)
    (htail : tail.length = 4) (hv : ∀ e ∈ entries, e.pid < 8192) :
    patLoop ((entries.map serPATEntry).flatten ++ tail) pmt
      = entries.foldl (fun acc e => if e.progNum ≠ 0 then some e.pid else acc) pmt := by
  induction entries generalizing pmt with
  | nil => simpa using patLoop_short tail pmt (by omega)
  | cons e rest ih =>
    have hrest : ((rest.map serPATEntry).flatten ++ tail).length ≥ 4 := by
      simp [htail]
    obtain ⟨m, ms, hms⟩ : ∃ m ms, (rest.map serPATEntry).flatten ++ tail = m :: ms := by
      cases hc : (rest.map serPATEntry).flatten ++ tail with
      | nil => rw [hc] at hrest; simp at hrest
      | cons m ms => exact ⟨m, ms, rfl⟩
    have hpid : e.pid < 8192 := hv e (by simp)
    calc patLoop (((e :: rest).map serPATEntry).flatten ++ tail) pmt
        = patLoop (serPATEntry e ++ ((rest.map serPATEntry).flatten ++ tail)) pmt := by
          simp
      _ = patLoop ((rest.map serPATEntry).flatten ++ tail)
            (if e.progNum ≠ 0 then some e.pid else pmt) := by
          rw [hms]
          simp only [serPATEntry, List.cons_append, List.nil_append, patLoop]
          rw [or_hi_lo, pid_recover e.pid hpid, ← hms]
      _ = _ := by
          rw [List.foldl_cons]
          exact ih _ (fun a ha => hv a (by simp [ha]))

/-! ## Claims about the transport demultiplexer -/

/-- Claim C7 (counterexample): a buffer that is exactly one well-formed
188-byte transport packet (sync byte 0x47 first).  `parse` hands no
packet at all to `parsePacket`, contradicting the claim that all `n`
packets of a concatenation of `n` well-formed packets are parsed. -/
theorem claim7_counterexample : tsParse (0x47 :: List.replicate 187 0) = [] := by
  rw [tsParse]
  exact dif_neg (by rw [List.length_cons, List.length_replicate]; omega)

/-- Claim C7 (amended): `parse` splits the buffer into 188-byte packets by
scanning for sync byte 0x47, but its loop requires strictly more than 188
bytes after the cursor, so for a buffer that is a concatenation of `n`
well-formed 188-byte packets exactly the first `n - 1` packets are
parsed and the final packet is never parsed. -/
theorem claim7_amended (ps : List (List Nat)) (hlen : ∀ p ∈ ps, p.length = 188)
    (hsync : ∀ p ∈ ps, p.getD 0 0 = 0x47) :
    tsParse ps.flatten = ps.dropLast := by
  induction ps with
  | nil => rw [tsParse]; simp
  | cons p rest ih =>
    have hp : p.length = 188 := hlen p (by simp)
    cases rest with
    | nil =>
      rw [tsParse]
      simp [hp]
    | cons q rest' =>
      have hq : q.length = 188 := hlen q (by simp)
      have hflatlen : 188 ≤ ((q :: rest').flatten).length := by
        simp [hq]
      rw [tsParse]
      have hlength : 188 < ((p :: q :: rest').flatten).length := by
        simp only [List.flatten_cons]
        rw [List.length_append, hp]
        simp only [List.flatten_cons] at hflatlen
        omega
      have hsync0 : ((p :: q :: rest').flatten).getD 0 0 = 0x47 := by
        simp only [List.flatten_cons]
        rw [List.getD_append _ _ _ _ (by omega)]
        exact hsync p (by simp)
      rw [dif_pos hlength, if_pos hsync0]
      have hsplit : ((p :: q :: rest').flatten) = p ++ (q :: rest').flatten := by
        simp
      have htake : ((p :: q :: rest').flatten).take 188 = p := by
        rw [hsplit, show (188 : Nat) = p.length from hp.symm, List.take_left]
      have hdrop : ((p :: q :: rest').flatten).drop 188 = (q :: rest').flatten := by
        rw [hsplit, show (188 : Nat) = p.length from hp.symm, List.drop_left]
      rw [htake, hdrop, ih (fun a ha => hlen a (by simp [ha]))
        (fun a ha => hsync a (by simp [ha]))]
      rfl

/-- Claim C7 (witness for the amended theorem): two concatenated
well-formed packets; exactly the first is parsed. -/
theorem claim7_witness :
    tsParse ((0x47 :: List.replicate 187 0) ++ (0x47 :: List.replicate 187 1))
      = [0x47 :: List.replicate 187 0] := by
  have h := claim7_amended
    [0x47 :: List.replicate 187 0, 0x47 :: List.replicate 187 1]
    (by
      intro p hp
      rcases List.mem_cons.mp hp with h | hp2
      · subst h; rw [List.length_cons, List.length_replicate]
      · rcases List.mem_cons.mp hp2 with h | hp3
        · subst h; rw [List.length_cons, List.length_replicate]
        · exact absurd hp3 (List.not_mem_nil p))
    (by
      intro p hp
      rcases List.mem_cons.mp hp with h | hp2
      · subst h; rfl
      · rcases List.mem_cons.mp hp2 with h | hp3
        · subst h; rfl
        · exact absurd hp3 (List.not_mem_nil p))
  rw [show ([0x47 :: List.replicate 187 0, 0x47 :: List.replicate 187 1] : List (List Nat)).flatten
      = (0x47 :: List.replicate 187 0) ++ (0x47 :: List.replicate 187 1) from by
        rw [List.flatten_cons, List.flatten_cons, List.flatten_nil, List.append_nil]] at h
  exact h

/-- Claim C3 (counterexample): a PAT whose program loop has the two
entries (program 1, PID 0x100) and (program 2, PID 0x200).  `parsePAT`
leaves `pmtPID` at 0x200, the PID of the *last* nonzero-program entry,
not the first (0x100), because the loop overwrites `pmtPID` on every
nonzero entry. -/
theorem claim3_counterexample :
    parsePAT (serPAT [0, 0, 13, 0, 1, 0, 0, 0] [⟨1, 0x100⟩, ⟨2, 0x200⟩] [0, 0, 0, 0]) none
        = some 0x200 ∧ (0x200 : Nat) ≠ 0x100 := by
  constructor
  · decide
  · decide

/-- Claim C3 (amended): for a valid serialized PAT section, `parsePAT`
sets `pmtPID` to the PID of the **last** entry with program number ≠ 0,
in section order (each nonzero entry overwrites the previous value), and
leaves it unchanged when no such entry exists. -/
theorem claim3_amended (hdr : List Nat) (entries : List PATEntry) (crc : List Nat)
    (old : Option Nat) (hhdr : hdr.length = 8) (hcrc : crc.length = 4)
    (hv : ∀ e ∈ entries, e.pid < 8192) :
    parsePAT (serPAT hdr entries crc) old
      = entries.foldl (fun acc e => if e.progNum ≠ 0 then some e.pid else acc) old := by
  have hget : (serPAT hdr entries crc).getD 0 0 = 0 := rfl
  have hlen : 9 ≤ (serPAT hdr entries crc).length := by
    simp [serPAT, hhdr]
  have hdrop : (serPAT hdr entries crc).drop 9
      = (entries.map serPATEntry).flatten ++ crc := by
    rw [serPAT, show (9 : Nat) = ((0 : Nat) :: hdr).length from by
        rw [List.length_cons, hhdr],
      List.drop_left]
  rw [parsePAT]
  simp only [hget]
  rw [if_neg (by omega), hdrop, patLoop_ser entries crc old hcrc hv]

/-- Claim C3 (witness for the amended theorem): the amended theorem applied
to the two-entry PAT of the counterexample gives 0x200. -/
theorem claim3_witness :
    parsePAT (serPAT [0, 0, 13, 0, 1, 0, 0, 0] [⟨1, 0x100⟩, ⟨2, 0x200⟩] [0, 0, 0, 0]) none
      = some 0x200 := by
  have h := claim3_amended [0, 0, 13, 0, 1, 0, 0, 0] [⟨1, 0x100⟩, ⟨2, 0x200⟩]
    [0, 0, 0, 0] none (by simp) (by simp)
    (by intro e he; simp at he; rcases he with h | h <;> simp [h])
  simpa using h

theorem pmtDescLoop_step (rem : List Nat) (pid pos descEnd : Nat) (acc : Finset Nat)
    (h : pos < descEnd ∧ pos + 2 < rem.length) :
    pmtDescLoop rem pid pos descEnd acc
      = pmtDescLoop rem pid (pos + 2 + rem.getD (pos + 1) 0) descEnd
          (if rem.getD pos 0 = 0x59 then insert pid acc else acc) := by
  rw [pmtDescLoop, dif_pos h]

theorem pmtDescLoop_stop (rem : List Nat) (pid pos descEnd : Nat) (acc : Finset Nat)
    (h : ¬(pos < descEnd ∧ pos + 2 < rem.length)) :
    pmtDescLoop rem pid pos descEnd acc = acc := by
  rw [pmtDescLoop, dif_neg h]

theorem pmtDescLoop_ser (rem : List Nat) (pid : Nat) (descs : List PMTDesc)
    (tail : List Nat) (pos : Nat) (acc : Finset Nat)
    (hpos : pos ≤ rem.length)
    (hdrop : rem.drop pos = (descs.map serDesc).flatten ++ tail)
    (htail : 4 ≤ tail.length) :
    pmtDescLoop rem pid pos (pos + ((descs.map serDesc).flatten).length) acc
      = if descs.any (fun d => d.tag == 0x59) then insert pid acc else acc := by
  induction descs generalizing pos acc with
  | nil =>
    rw [pmtDescLoop_stop _ _ _ _ _ (by simp)]
    simp
  | cons d rest ih =>
    have hlenrem : (rem.drop pos).length = rem.length - pos := List.length_drop _ _
    have hflat : (((d :: rest).map serDesc).flatten)
        = d.tag :: d.body.length :: (d.body ++ (rest.map serDesc).flatten) := by
      simp [serDesc]
    have hflatlen : (((d :: rest).map serDesc).flatten).length
        = 2 + d.body.length + ((rest.map serDesc).flatten).length := by
      rw [hflat]; simp; omega
    have hremlen : rem.length
        = pos + (((d :: rest).map serDesc).flatten).length + tail.length := by
      rw [hdrop] at hlenrem
      rw [List.length_append] at hlenrem
      omega
    have hread0 : rem.getD pos 0 = d.tag := by
      have h := getD_drop rem pos 0
      rw [Nat.add_zero, hdrop, hflat] at h
      exact h.symm
    have hread1 : rem.getD (pos + 1) 0 = d.body.length := by
      have h := getD_drop rem pos 1
      rw [hdrop, hflat] at h
      exact h.symm
    have hcond : pos < pos + (((d :: rest).map serDesc).flatten).length ∧
        pos + 2 < rem.length := by
      constructor
      · omega
      · omega
    rw [pmtDescLoop_step _ _ _ _ _ hcond, hread0, hread1]
    have hdrop2 : (rem.drop pos).drop 2 = d.body ++ ((rest.map serDesc).flatten ++ tail) := by
      rw [hdrop, hflat]
      simp
    have hdrop' : rem.drop (pos + 2 + d.body.length)
        = (rest.map serDesc).flatten ++ tail := by
      have h1 : rem.drop (pos + 2 + d.body.length)
          = ((rem.drop pos).drop 2).drop d.body.length := by
        rw [List.drop_drop, List.drop_drop]
        congr 1
        omega
      rw [h1, hdrop2, List.drop_left]
    have hend : pos + (((d :: rest).map serDesc).flatten).length
        = (pos + 2 + d.body.length) + ((rest.map serDesc).flatten).length := by
      omega
    rw [hend, ih (pos + 2 + d.body.length) _ (by omega) hdrop']
    by_cases htag : d.tag = 0x59 <;>
      by_cases hrest : rest.any (fun d => d.tag == 0x59) = true <;>
        simp [htag, hrest, Finset.insert_idem]

theorem pmtStreamLoop_step (rem : List Nat) (acc : Finset Nat) (h : 5 < rem.length) :
    pmtStreamLoop rem acc
      = pmtStreamLoop (rem.drop (5 + (((rem.getD 3 0 &&& 0x0F) <<< 8) ||| rem.getD 4 0)))
          (if rem.getD 0 0 = 0x06 ∨ rem.getD 0 0 = 0x59 ∨ 0x90 ≤ rem.getD 0 0 then
            pmtDescLoop rem (((rem.getD 1 0 &&& 0x1F) <<< 8) ||| rem.getD 2 0) 5
              (5 + (((rem.getD 3 0 &&& 0x0F) <<< 8) ||| rem.getD 4 0)) acc
          else acc) := by
  rw [pmtStreamLoop, dif_pos h]

theorem pmtStreamLoop_ser (streams : List PMTStream) (crc : List Nat) (acc : Finset Nat)
    (hcrc : crc.length = 4)
    (hv : ∀ s ∈ streams, s.pid < 8192 ∧ ((s.descs.map serDesc).flatten).length < 4096) :
    pmtStreamLoop ((streams.map serStream).flatten ++ crc) acc
      = streams.foldl (fun a s =>
          if (s.streamType = 0x06 ∨ s.streamType = 0x59 ∨ 0x90 ≤ s.streamType) ∧
              s.descs.any (fun d => d.tag == 0x59) = true
          then insert s.pid a else a) acc := by
  induction streams generalizing acc with
  | nil =>
    rw [pmtStreamLoop, dif_neg (by simp [hcrc])]
    simp
  | cons s rest ih =>
    have hpid : s.pid < 8192 := (hv s (by simp)).1
    have heslen : ((s.descs.map serDesc).flatten).length < 4096 := (hv s (by simp)).2
    have hser : serStream s = s.streamType :: (0xE0 ||| (s.pid >>> 8)) :: (s.pid &&& 0xFF) ::
        (0xF0 ||| (((s.descs.map serDesc).flatten).length >>> 8)) ::
        (((s.descs.map serDesc).flatten).length &&& 0xFF) ::
        (s.descs.map serDesc).flatten := rfl
    have hflat : (((s :: rest).map serStream).flatten ++ crc)
        = s.streamType :: (0xE0 ||| (s.pid >>> 8)) :: (s.pid &&& 0xFF) ::
          (0xF0 ||| (((s.descs.map serDesc).flatten).length >>> 8)) ::
          (((s.descs.map serDesc).flatten).length &&& 0xFF) ::
          ((s.descs.map serDesc).flatten ++ ((rest.map serStream).flatten ++ crc)) := by
      simp only [List.map_cons, List.flatten_cons, hser, List.cons_append, List.append_assoc]
    have hlen : 5 < (((s :: rest).map serStream).flatten ++ crc).length := by
      rw [hflat]
      simp [hcrc]
    rw [pmtStreamLoop_step _ _ hlen]
    have hget0 : ((((s :: rest).map serStream).flatten ++ crc)).getD 0 0 = s.streamType := by
      rw [hflat]; rfl
    have hget1 : ((((s :: rest).map serStream).flatten ++ crc)).getD 1 0
        = 0xE0 ||| (s.pid >>> 8) := by rw [hflat]; rfl
    have hget2 : ((((s :: rest).map serStream).flatten ++ crc)).getD 2 0
        = s.pid &&& 0xFF := by rw [hflat]; rfl
    have hget3 : ((((s :: rest).map serStream).flatten ++ crc)).getD 3 0
        = 0xF0 ||| (((s.descs.map serDesc).flatten).length >>> 8) := by rw [hflat]; rfl
    have hget4 : ((((s :: rest).map serStream).flatten ++ crc)).getD 4 0
        = ((s.descs.map serDesc).flatten).length &&& 0xFF := by rw [hflat]; rfl
    rw [hget0, hget1, hget2, hget3, hget4, pid_recover s.pid hpid,
      len_recover _ heslen]
    have hdropes : ((((s :: rest).map serStream).flatten ++ crc)).drop
        (5 + ((s.descs.map serDesc).flatten).length)
        = (rest.map serStream).flatten ++ crc := by
      rw [hflat]
      have h5 : ∀ x0 x1 x2 x3 x4 : Nat, ∀ X : List Nat,
          (x0 :: x1 :: x2 :: x3 :: x4 :: X).drop (5 + ((s.descs.map serDesc).flatten).length)
            = X.drop ((s.descs.map serDesc).flatten).length := by
        intro x0 x1 x2 x3 x4 X
        rw [show 5 + ((s.descs.map serDesc).flatten).length
            = ((s.descs.map serDesc).flatten).length + 1 + 1 + 1 + 1 + 1 from by omega]
        simp [List.drop_succ_cons]
      rw [h5, List.drop_left]
    have hdesc : pmtDescLoop (((s :: rest).map serStream).flatten ++ crc) s.pid 5
        (5 + ((s.descs.map serDesc).flatten).length) acc
        = if s.descs.any (fun d => d.tag == 0x59) then insert s.pid acc else acc := by
      apply pmtDescLoop_ser _ _ _ ((rest.map serStream).flatten ++ crc) 5 acc
      · rw [hflat]; simp
      · rw [hflat]; rfl
      · simp [hcrc]
    by_cases htype : s.streamType = 0x06 ∨ s.streamType = 0x59 ∨ 0x90 ≤ s.streamType
    · rw [if_pos htype, hdesc, hdropes, ih _ (fun a ha => hv a (by simp [ha])),
        List.foldl_cons]
      by_cases hany : s.descs.any (fun d => d.tag == 0x59) = true <;>
        simp [hany, htype]
    · rw [if_neg htype, hdropes, ih _ (fun a ha => hv a (by simp [ha])), List.foldl_cons]
      simp [htype]

theorem foldl_insert_mem (l : List PMTStream) (acc : Finset Nat) (x : Nat)
    (p : PMTStream → Prop) [DecidablePred p] :
    (x ∈ l.foldl (fun a s => if p s then insert s.pid a else a) acc
      ↔ x ∈ acc ∨ ∃ s ∈ l, p s ∧ s.pid = x) := by
  induction l generalizing acc with
  | nil => simp
  | cons s rest ih =>
    rw [List.foldl_cons, ih]
    by_cases hs : p s
    · simp only [if_pos hs, Finset.mem_insert]
      constructor
      · rintro (⟨h | h⟩ | h)
        · exact Or.inr ⟨s, by simp, hs, h.symm⟩
        · exact Or.inl h
        · obtain ⟨t, ht, hpt, hte⟩ := h
          exact Or.inr ⟨t, by simp [ht], hpt, hte⟩
      · rintro (h | ⟨t, ht, hpt, hte⟩)
        · exact Or.inl (Or.inr h)
        · rcases List.mem_cons.mp ht with rfl | ht2
          · exact Or.inl (Or.inl hte.symm)
          · exact Or.inr ⟨t, ht2, hpt, hte⟩
    · simp only [if_neg hs]
      constructor
      · rintro (h | ⟨t, ht, hpt, hte⟩)
        · exact Or.inl h
        · exact Or.inr ⟨t, by simp [ht], hpt, hte⟩
      · rintro (h | ⟨t, ht, hpt, hte⟩)
        · exact Or.inl h
        · rcases List.mem_cons.mp ht with rfl | ht2
          · exact absurd hpt hs
          · exact Or.inr ⟨t, ht2, hpt, hte⟩

theorem parsePMT_ser (hdr progInfo : List Nat) (streams : List PMTStream)
    (crc : List Nat) (acc : Finset Nat) (hhdr : hdr.length = 10)
    (hpil : progInfo.length < 4096) :
    parsePMT (serPMT hdr progInfo streams crc) acc
      = pmtStreamLoop ((streams.map serStream).flatten ++ crc) acc := by
  have h11 : ((0 : Nat) :: hdr).length = 11 := by rw [List.length_cons, hhdr]
  have hget0 : (serPMT hdr progInfo streams crc).getD 0 0 = 0 := by
    rw [serPMT, List.getD_append _ _ _ _ (by simp)]
    rfl
  have hlen : 13 ≤ (serPMT hdr progInfo streams crc).length := by
    rw [serPMT]
    simp [hhdr]
    omega
  have hget11 : (serPMT hdr progInfo streams crc).getD (0 + 1 + 10) 0
      = 0xF0 ||| (progInfo.length >>> 8) := by
    rw [serPMT, List.getD_append_right _ _ _ _ (by simp [hhdr])]
    rw [h11]
    norm_num
  have hget12 : (serPMT hdr progInfo streams crc).getD (0 + 1 + 11) 0
      = progInfo.length &&& 0xFF := by
    rw [serPMT, List.getD_append_right _ _ _ _ (by simp [hhdr])]
    rw [h11]
    norm_num
  have hdrop : (serPMT hdr progInfo streams crc).drop (0 + 1 + 12 + progInfo.length)
      = (streams.map serStream).flatten ++ crc := by
    rw [serPMT, show 0 + 1 + 12 + progInfo.length = 11 + (2 + progInfo.length) from by
      omega]
    rw [← List.drop_drop, show (11 : Nat) = ((0 : Nat) :: hdr).length from h11.symm,
      List.drop_left]
    rw [show (2 : Nat) + progInfo.length = (progInfo.length + 1) + 1 from by omega,
      List.drop_succ_cons, List.drop_succ_cons, List.drop_left]
  simp only [parsePMT]
  rw [hget0, if_neg (by omega), hget11, hget12, len_recover _ hpil, hdrop]

/-- Claim C1 (counterexample): a valid PMT whose single elementary stream
has stream type 0x02 (not one of 0x06, 0x59, ≥ 0x90) but carries a
descriptor with tag 0x59 in its descriptor loop.  The claim demands PID
0x123 to be in the resulting subtitle PID set; `parsePMT` leaves the set
empty, because the descriptor loop is scanned only for stream types 0x06,
0x59 and ≥ 0x90. -/
theorem claim1_counterexample :
    parsePMT (serPMT [2, 0, 0, 0, 1, 0, 0, 0, 0, 0] []
      [⟨0x02, 0x123, [⟨0x59, []⟩]⟩] [0, 0, 0, 0]) ∅ = ∅ := by
  rw [parsePMT_ser _ _ _ _ _ (by simp) (by simp)]
  rw [pmtStreamLoop_ser [⟨0x02, 0x123, [⟨0x59, []⟩]⟩] [0, 0, 0, 0] ∅ rfl (by
    intro s hs
    simp only [List.mem_singleton] at hs
    subst hs
    exact ⟨by norm_num, by norm_num [serDesc]⟩)]
  norm_num

/-- Claim C1 (amended): for every valid serialized PMT fed to the
demultiplexer with an empty subtitle PID set, the resulting set contains
exactly those elementary PIDs whose stream **type** is 0x06, 0x59 or
≥ 0x90 **and** whose descriptor loop contains a descriptor with tag 0x59.
The claim as stated omits the stream-type condition. -/
theorem claim1_amended (hdr progInfo : List Nat) (streams : List PMTStream)
    (crc : List Nat) (x : Nat) (hhdr : hdr.length = 10)
    (hpil : progInfo.length < 4096) (hcrc : crc.length = 4)
    (hv : ∀ s ∈ streams, s.pid < 8192 ∧ ((s.descs.map serDesc).flatten).length < 4096) :
    x ∈ parsePMT (serPMT hdr progInfo streams crc) ∅
      ↔ ∃ s ∈ streams, (s.streamType = 0x06 ∨ s.streamType = 0x59 ∨ 0x90 ≤ s.streamType)
          ∧ (∃ d ∈ s.descs, d.tag = 0x59) ∧ s.pid = x := by
  rw [parsePMT_ser hdr progInfo streams crc ∅ hhdr hpil,
    pmtStreamLoop_ser streams crc ∅ hcrc hv,
    foldl_insert_mem]
  simp only [Finset.not_mem_empty, false_or, List.any_eq_true, beq_iff_eq, and_assoc]

/-- Claim C1 (witness for the amended theorem): a PMT with one DVB
subtitle stream (type 0x06, PID 0x45, subtitling descriptor 0x59);
0x45 lands in the set. -/
theorem claim1_witness :
    (0x45 : Nat) ∈ parsePMT (serPMT [2, 0, 0, 0, 1, 0, 0, 0, 0, 0] []
      [⟨0x06, 0x45, [⟨0x59, [0x64, 0x65, 0x75]⟩]⟩] [0, 0, 0, 0]) ∅ := by
  rw [claim1_amended [2, 0, 0, 0, 1, 0, 0, 0, 0, 0] []
    [⟨0x06, 0x45, [⟨0x59, [0x64, 0x65, 0x75]⟩]⟩] [0, 0, 0, 0] 0x45
    (by simp) (by simp) rfl
    (by
      intro s hs
      simp only [List.mem_singleton] at hs
      subst hs
      exact ⟨by norm_num, by norm_num [serDesc]⟩)]
  exact ⟨⟨0x06, 0x45, [⟨0x59, [0x64, 0x65, 0x75]⟩]⟩, List.mem_singleton_self _,
    Or.inl rfl, ⟨⟨0x59, [0x64, 0x65, 0x75]⟩, List.mem_singleton_self _, rfl⟩, rfl⟩

theorem collectPES_start_snd (buf : PESBuf) (payload : List Nat) :
    (collectPES buf payload true).2
      = if buf.data ≠ [] then some (buf.pts, buf.data) else none := by
  simp only [collectPES, if_true]
  split <;> rfl

theorem runCollect_conts (d : List Nat) (t : Int) (cs : List (List Nat)) (q : List Nat) :
    (runCollect ⟨d, t⟩ ((cs.map (fun c => (c, false))) ++ [(q, true)])).2
      = if d ++ cs.flatten = [] then [] else [(t, d ++ cs.flatten)] := by
  induction cs generalizing d with
  | nil =>
    simp only [List.map_nil, List.nil_append, runCollect, List.flatten_nil,
      List.append_nil]
    rw [collectPES_start_snd]
    by_cases hd : d = []
    · subst hd
      simp
    · simp [hd]
  | cons c cs ih =>
    simp only [List.map_cons, List.cons_append, runCollect, collectPES,
      Bool.false_eq_true, if_false, Option.toList_none, List.nil_append,
      List.append_eq]
    rw [ih (d ++ c)]
    simp [List.append_assoc]

theorem collectPES_start_fresh (p : List Nat)
    (hlen : 9 < p.length) (h0 : p.getD 0 0 = 0) (h1 : p.getD 1 0 = 0)
    (h2 : p.getD 2 0 = 1) :
    collectPES ⟨[], 0⟩ p true = (⟨p.drop (9 + p.getD 8 0), pesPTS p⟩, none) := by
  have h0' : p[0]?.getD 0 = 0 := by rw [← List.getD_eq_getElem?_getD]; exact h0
  have h1' : p[1]?.getD 0 = 0 := by rw [← List.getD_eq_getElem?_getD]; exact h1
  have h2' : p[2]?.getD 0 = 1 := by rw [← List.getD_eq_getElem?_getD]; exact h2
  simp [collectPES, hlen, h0, h1, h2, h0', h1', h2']

/-- Claim C6: on one subtitle PID, a payload-unit-start packet flushes the
accumulator as a complete unit exactly when it is non-empty, and the
emitted unit's data is the byte-for-byte concatenation of the start
packet's post-header payload (`payload.drop (9 + header_data_length)`)
with all continuation payloads received before the next start packet, in
arrival order.  Stated for the full round: a valid-header start packet,
its continuations, and the next start packet. -/
theorem claim6 (p q : List Nat) (cs : List (List Nat))
    (hlen : 9 < p.length) (h0 : p.getD 0 0 = 0) (h1 : p.getD 1 0 = 0)
    (h2 : p.getD 2 0 = 1) :
    (runCollect ⟨[], 0⟩ ((p, true) :: ((cs.map (fun c => (c, false))) ++ [(q, true)]))).2
      = if p.drop (9 + p.getD 8 0) ++ cs.flatten = [] then []
        else [(pesPTS p, p.drop (9 + p.getD 8 0) ++ cs.flatten)] := by
  simp only [runCollect, collectPES_start_fresh p hlen h0 h1 h2, Option.toList_none,
    List.nil_append]
  rw [runCollect_conts]

/-- Claim C6 (witness): a start packet with header-data length 0 and one
data byte 0xAA, one continuation 0xBB, then the next start packet; the
flush emits one unit with data `[0xAA, 0xBB]`. -/
theorem claim6_witness :
    (runCollect ⟨[], 0⟩ (([0, 0, 1, 0xBD, 0, 0, 0x80, 0x80, 0, 0xAA], true) ::
        (([[0xBB]].map (fun c => (c, false))) ++ [(([] : List Nat), true)]))).2
      = [(1073741824, [0xAA, 0xBB])] := by
  rw [claim6 [0, 0, 1, 0xBD, 0, 0, 0x80, 0x80, 0, 0xAA] [] [[0xBB]]
    (by decide) (by decide) (by decide) (by decide)]
  decide

theorem or_mul_pow {k r : Nat} (q : Nat) (h : r < 2 ^ k) :
    (2 ^ k * q) ||| r = 2 ^ k * q + r :=
  (Nat.mul_add_lt_is_or h q).symm

theorem pts_byte9 (a : Nat) (h : a < 8) : (0x21 ||| (a <<< 1)) &&& 0x0E = 2 * a := by
  revert h
  revert a
  decide

theorem pts_byte11 (c : Nat) (h : c < 128) : ((c <<< 1) ||| 0x01) &&& 0xFE = 2 * c := by
  revert h
  revert c
  decide

theorem pts_byte13 (e : Nat) (h : e < 128) :
    (((e <<< 1) ||| 0x01) &&& 0xFE) >>> 1 = e := by
  revert h
  revert e
  decide

/-- The five-byte PES timestamp field, decoded with the JS 32-bit bitwise
semantics of `collectPES`, yields the encoded 33-bit value mod 2^32. -/
theorem ptsPattern (v : Nat) (hv : v < 2 ^ 33) :
    ((((ptsBytes v).getD 0 0 &&& 0x0E) <<< 29) % 4294967296) |||
        ((ptsBytes v).getD 1 0 <<< 22) ||| (((ptsBytes v).getD 2 0 &&& 0xFE) <<< 14) |||
        ((ptsBytes v).getD 3 0 <<< 7) ||| (((ptsBytes v).getD 4 0 &&& 0xFE) >>> 1)
      = v % 4294967296 := by
  have ha8 : (v >>> 30) &&& 0x07 < 8 := by
    simpa using Nat.and_lt_two_pow (v >>> 30) (show (0x07 : Nat) < 2 ^ 3 by norm_num)
  have hb256 : (v >>> 22) &&& 0xFF < 256 := by
    simpa using Nat.and_lt_two_pow (v >>> 22) (show (0xFF : Nat) < 2 ^ 8 by norm_num)
  have hc128 : (v >>> 15) &&& 0x7F < 128 := by
    simpa using Nat.and_lt_two_pow (v >>> 15) (show (0x7F : Nat) < 2 ^ 7 by norm_num)
  have hd256 : (v >>> 7) &&& 0xFF < 256 := by
    simpa using Nat.and_lt_two_pow (v >>> 7) (show (0xFF : Nat) < 2 ^ 8 by norm_num)
  have he128 : v &&& 0x7F < 128 := by
    simpa using Nat.and_lt_two_pow v (show (0x7F : Nat) < 2 ^ 7 by norm_num)
  set a := (v >>> 30) &&& 0x07 with ha
  set b := (v >>> 22) &&& 0xFF with hb
  set c := (v >>> 15) &&& 0x7F with hc
  set d := (v >>> 7) &&& 0xFF with hd
  set e := v &&& 0x7F with he
  have hg0 : (ptsBytes v).getD 0 0 = 0x21 ||| (a <<< 1) := rfl
  have hg1 : (ptsBytes v).getD 1 0 = b := rfl
  have hg2 : (ptsBytes v).getD 2 0 = (c <<< 1) ||| 0x01 := rfl
  have hg3 : (ptsBytes v).getD 3 0 = d := rfl
  have hg4 : (ptsBytes v).getD 4 0 = (e <<< 1) ||| 0x01 := rfl
  rw [hg0, hg1, hg2, hg3, hg4, pts_byte9 a ha8, pts_byte11 c hc128, pts_byte13 e he128]
  rw [Nat.shiftLeft_eq, Nat.shiftLeft_eq, Nat.shiftLeft_eq, Nat.shiftLeft_eq]
  have ht1 : 2 * a * 2 ^ 29 % 4294967296 = 2 ^ 30 * (a % 4) := by
    rw [show 2 * a * 2 ^ 29 = 2 ^ 30 * a from by ring,
      show (4294967296 : Nat) = 2 ^ 30 * 4 from by norm_num, Nat.mul_mod_mul_left]
  rw [ht1]
  have hr1 : b * 2 ^ 22 < 2 ^ 30 := by
    calc b * 2 ^ 22 < 256 * 2 ^ 22 := by
          exact Nat.mul_lt_mul_of_lt_of_le hb256 (le_refl _) (by norm_num)
      _ = 2 ^ 30 := by norm_num
  rw [or_mul_pow (a % 4) hr1]
  rw [show 2 ^ 30 * (a % 4) + b * 2 ^ 22 = 2 ^ 22 * (2 ^ 8 * (a % 4) + b) from by ring,
    show 2 * c * 2 ^ 14 = c * 2 ^ 15 from by ring]
  have hr2 : c * 2 ^ 15 < 2 ^ 22 := by
    calc c * 2 ^ 15 < 128 * 2 ^ 15 := by
          exact Nat.mul_lt_mul_of_lt_of_le hc128 (le_refl _) (by norm_num)
      _ = 2 ^ 22 := by norm_num
  rw [or_mul_pow (2 ^ 8 * (a % 4) + b) hr2]
  rw [show 2 ^ 22 * (2 ^ 8 * (a % 4) + b) + c * 2 ^ 15
      = 2 ^ 15 * (2 ^ 7 * (2 ^ 8 * (a % 4) + b) + c) from by ring]
  have hr3 : d * 2 ^ 7 < 2 ^ 15 := by
    calc d * 2 ^ 7 < 256 * 2 ^ 7 := by
          exact Nat.mul_lt_mul_of_lt_of_le hd256 (le_refl _) (by norm_num)
      _ = 2 ^ 15 := by norm_num
  rw [or_mul_pow (2 ^ 7 * (2 ^ 8 * (a % 4) + b) + c) hr3]
  rw [show 2 ^ 15 * (2 ^ 7 * (2 ^ 8 * (a % 4) + b) + c) + d * 2 ^ 7
      = 2 ^ 7 * (2 ^ 8 * (2 ^ 7 * (2 ^ 8 * (a % 4) + b) + c) + d) from by ring]
  have hr4 : e < 2 ^ 7 := by
    calc e < 128 := he128
      _ = 2 ^ 7 := by norm_num
  rw [or_mul_pow (2 ^ 8 * (2 ^ 7 * (2 ^ 8 * (a % 4) + b) + c) + d) hr4]
  have ha' : a = v / 1073741824 % 8 := by
    rw [ha, Nat.shiftRight_eq_div_pow, show (0x07 : Nat) = 2 ^ 3 - 1 from by norm_num,
      Nat.and_pow_two_sub_one_eq_mod]
  have hb' : b = v / 4194304 % 256 := by
    rw [hb, Nat.shiftRight_eq_div_pow, show (0xFF : Nat) = 2 ^ 8 - 1 from by norm_num,
      Nat.and_pow_two_sub_one_eq_mod]
  have hc' : c = v / 32768 % 128 := by
    rw [hc, Nat.shiftRight_eq_div_pow, show (0x7F : Nat) = 2 ^ 7 - 1 from by norm_num,
      Nat.and_pow_two_sub_one_eq_mod]
  have hd' : d = v / 128 % 256 := by
    rw [hd, Nat.shiftRight_eq_div_pow, show (0xFF : Nat) = 2 ^ 8 - 1 from by norm_num,
      Nat.and_pow_two_sub_one_eq_mod]
  have he' : e = v % 128 := by
    rw [he, show (0x7F : Nat) = 2 ^ 7 - 1 from by norm_num,
      Nat.and_pow_two_sub_one_eq_mod]
  have hv' : v < 8589934592 := by
    calc v < 2 ^ 33 := hv
      _ = 8589934592 := by norm_num
  norm_num
  omega

theorem jsInt32_mod (n : Nat) : jsInt32 (n % 4294967296) = jsInt32 n := by
  simp [jsInt32, Nat.mod_mod_of_dvd]

theorem jsInt32_small (v : Nat) (h : v < 2 ^ 31) : jsInt32 v = (v : Int) := by
  have h' : v < 2147483648 := by
    calc v < 2 ^ 31 := h
      _ = 2147483648 := by norm_num
  rw [jsInt32, Nat.mod_eq_of_lt (by omega), if_pos h']

/-- Claim C2 (amended): for a PES start packet whose 9 header bytes carry
the `00 00 01` prefix and a set PTS flag, followed by the standard
5-byte encoding of a 33-bit timestamp `v`, `collectPES` stores as the
unit's pts the value `v` reduced mod 2^32 and reinterpreted as a signed
32-bit integer (`jsInt32 v`); this equals `v` itself exactly when
`v < 2^31`.  The claim as stated asserts equality for all 33-bit values;
the JS `<< 29` and the `|` chain operate on 32-bit signed integers, so
values at or above 2^31 come out wrapped. -/
theorem claim2_amended (pre rest : List Nat) (v : Nat)
    (hpre : pre.length = 9) (h0 : pre.getD 0 0 = 0) (h1 : pre.getD 1 0 = 0)
    (h2 : pre.getD 2 0 = 1)
    (hflag : ((pre.getD 7 0 >>> 6) &&& 0x03) &&& 0x02 ≠ 0)
    (hv : v < 2 ^ 33) :
    (collectPES ⟨[], 0⟩ (pre ++ (ptsBytes v ++ rest)) true).1.pts = jsInt32 v
      ∧ (v < 2 ^ 31 → jsInt32 v = (v : Int)) := by
  refine ⟨?_, jsInt32_small v⟩
  have hlenp : 9 < (pre ++ (ptsBytes v ++ rest)).length := by
    rw [List.length_append, hpre, List.length_append,
      show (ptsBytes v).length = 5 from rfl]
    omega
  have hgpre : ∀ i, i < 9 → (pre ++ (ptsBytes v ++ rest)).getD i 0 = pre.getD i 0 := by
    intro i hi
    exact List.getD_append _ _ _ _ (by omega)
  have hgpts : ∀ i, i < 5 →
      (pre ++ (ptsBytes v ++ rest)).getD (9 + i) 0 = (ptsBytes v).getD i 0 := by
    intro i hi
    rw [List.getD_append_right _ _ _ _ (by omega), hpre,
      show 9 + i - 9 = i from by omega,
      List.getD_append _ _ _ _ (by simp [ptsBytes]; omega)]
  rw [collectPES_start_fresh _ hlenp (by rw [hgpre 0 (by omega)]; exact h0)
    (by rw [hgpre 1 (by omega)]; exact h1) (by rw [hgpre 2 (by omega)]; exact h2)]
  show pesPTS _ = _
  have h9 : (pre ++ (ptsBytes v ++ rest)).getD 9 0 = (ptsBytes v).getD 0 0 := hgpts 0 (by omega)
  have h10 : (pre ++ (ptsBytes v ++ rest)).getD 10 0 = (ptsBytes v).getD 1 0 := hgpts 1 (by omega)
  have h11 : (pre ++ (ptsBytes v ++ rest)).getD 11 0 = (ptsBytes v).getD 2 0 := hgpts 2 (by omega)
  have h12 : (pre ++ (ptsBytes v ++ rest)).getD 12 0 = (ptsBytes v).getD 3 0 := hgpts 3 (by omega)
  have h13 : (pre ++ (ptsBytes v ++ rest)).getD 13 0 = (ptsBytes v).getD 4 0 := hgpts 4 (by omega)
  simp only [pesPTS, hgpre 7 (by omega), h9, h10, h11, h12, h13]
  rw [if_pos hflag, ptsPattern v hv, jsInt32_mod]

/-- Claim C2 (counterexample): the start packet encoding the 33-bit
timestamp 2^31 = 2147483648.  The pts delivered by `collectPES` is
-2147483648 (the value wrapped to a signed 32-bit integer), not 2^31 as
the claim asserts for values at or above 2^31. -/
theorem claim2_counterexample :
    (collectPES ⟨[], 0⟩ ([0, 0, 1, 0xBD, 0, 0, 0x80, 0x80, 5] ++ (ptsBytes 2147483648 ++ []))
        true).1.pts = -2147483648
      ∧ ((-2147483648 : Int) ≠ 2147483648) := by
  constructor
  · decide
  · decide

/-- Claim C2 (witness for the amended theorem): the encoded timestamp
900000 (ten seconds at 90 kHz) is below 2^31 and is delivered exactly. -/
theorem claim2_witness :
    (collectPES ⟨[], 0⟩ ([0, 0, 1, 0xBD, 0, 0, 0x80, 0x80, 5] ++ (ptsBytes 900000 ++ []))
        true).1.pts = (900000 : Int) := by
  have h := claim2_amended [0, 0, 1, 0xBD, 0, 0, 0x80, 0x80, 5] [] 900000
    rfl rfl rfl rfl (by decide) (by norm_num)
  rw [h.1, h.2 (by norm_num)]
  norm_num

/-- Claim C9: the segment-scan loop of `DVBSubDecoder.decode` strictly
advances its cursor on every iteration: by 1 when the byte at the cursor
is not the sync byte 0x0F, and by `6 + segment_length` (hence at least
6) when a segment header is consumed; therefore the scan, modelled by
the total function `decodeOffsets`, reaches the end of the data in
finitely many steps. -/
theorem claim9 (data : List Nat) (offset o2 : Nat)
    (h : decodeStep data offset = some o2) :
    offset < o2 ∧
      ((data.getD offset 0 ≠ 0x0F ∧ o2 = offset + 1) ∨
       (data.getD offset 0 = 0x0F ∧ o2 = offset + 6 + segLength data offset ∧
        offset + 6 ≤ o2)) := by
  rw [decodeStep] at h
  by_cases h1 : offset + 6 < data.length
  · rw [if_pos h1] at h
    by_cases h2 : data.getD offset 0 ≠ 0x0F
    · rw [if_pos h2] at h
      have ho : o2 = offset + 1 := (Option.some.inj h).symm
      exact ⟨by omega, Or.inl ⟨h2, ho⟩⟩
    · rw [if_neg h2] at h
      by_cases h3 : data.length < offset + 6 + segLength data offset
      · rw [if_pos h3] at h
        exact absurd h (by simp)
      · rw [if_neg h3] at h
        have ho : o2 = offset + 6 + segLength data offset := (Option.some.inj h).symm
        have hb : data.getD offset 0 = 0x0F := not_not.mp h2
        exact ⟨by omega, Or.inr ⟨hb, ho, by omega⟩⟩
  · rw [if_neg h1] at h
    exact absurd h (by simp)

/-- Claim C9 (witness): on an 8-byte buffer of zeros at offset 0, the
loop advances by one byte. -/
theorem claim9_witness :
    (0 : Nat) < 1 ∧
      ((([0, 0, 0, 0, 0, 0, 0, 0] : List Nat).getD 0 0 ≠ 0x0F ∧ 1 = 0 + 1) ∨
       (([0, 0, 0, 0, 0, 0, 0, 0] : List Nat).getD 0 0 = 0x0F ∧
        1 = 0 + 6 + segLength [0, 0, 0, 0, 0, 0, 0, 0] 0 ∧ 0 + 6 ≤ 1)) :=
  claim9 [0, 0, 0, 0, 0, 0, 0, 0] 0 1 (by decide)

theorem decodeFieldGo_stop (clut : List Pixel) (width height : Nat) (b : Nat)
    (rest : List Nat) (pixels : List Pixel) (x y : Nat) (hy : height ≤ y) :
    decodeFieldGo clut width height (b :: rest) pixels x y = (pixels, []) := by
  rw [decodeFieldGo, if_pos hy]

theorem decodeFieldGo_nl (clut : List Pixel) (width height : Nat) (b : Nat)
    (rest : List Nat) (pixels : List Pixel) (x y : Nat) (hy : ¬height ≤ y)
    (hb : b = 0) :
    decodeFieldGo clut width height (b :: rest) pixels x y
      = decodeFieldGo clut width height rest pixels 0 (y + 2) := by
  rw [decodeFieldGo, if_neg hy, if_pos hb]

theorem decodeFieldGo_write (clut : List Pixel) (width height : Nat) (b : Nat)
    (rest : List Nat) (pixels : List Pixel) (x y : Nat) (hy : ¬height ≤ y)
    (hb : ¬b = 0) (hxy : x < width ∧ y < height) :
    decodeFieldGo clut width height (b :: rest) pixels x y
      = ((decodeFieldGo clut width height rest
            (pixels.set (y * width + x) (clutLookup clut b)) (x + 1) y).1,
         (y * width + x) :: (decodeFieldGo clut width height rest
            (pixels.set (y * width + x) (clutLookup clut b)) (x + 1) y).2) := by
  rw [decodeFieldGo, if_neg hy, if_neg hb, if_pos hxy]

theorem decodeFieldGo_skip (clut : List Pixel) (width height : Nat) (b : Nat)
    (rest : List Nat) (pixels : List Pixel) (x y : Nat) (hy : ¬height ≤ y)
    (hb : ¬b = 0) (hxy : ¬(x < width ∧ y < height)) :
    decodeFieldGo clut width height (b :: rest) pixels x y
      = decodeFieldGo clut width height rest pixels (x + 1) y := by
  rw [decodeFieldGo, if_neg hy, if_neg hb, if_neg hxy]

/-- Claim C10: every store `decodeField` performs into the pixel buffer
is in bounds: a pixel is written only at index `y*width + x` under the
guard `x < width && y < height`, so every recorded store index is below
`width * height`, for every field byte stream, start position and
buffer. -/
theorem claim10 (clut : List Pixel) (width height : Nat) (data : List Nat)
    (pixels : List Pixel) (x y : Nat) :
    ∀ i ∈ (decodeFieldGo clut width height data pixels x y).2, i < width * height := by
  induction data generalizing pixels x y with
  | nil =>
    intro i hi
    simp [decodeFieldGo] at hi
  | cons b rest ih =>
    intro i hi
    by_cases hy : height ≤ y
    · rw [decodeFieldGo_stop clut width height b rest pixels x y hy] at hi
      simp at hi
    · by_cases hb : b = 0
      · rw [decodeFieldGo_nl clut width height b rest pixels x y hy hb] at hi
        exact ih pixels 0 (y + 2) i hi
      · by_cases hxy : x < width ∧ y < height
        · rw [decodeFieldGo_write clut width height b rest pixels x y hy hb hxy] at hi
          rcases List.mem_cons.mp hi with rfl | hi2
          · calc y * width + x < y * width + width := by omega
              _ = (y + 1) * width := by ring
              _ ≤ height * width := Nat.mul_le_mul_right _ (by omega)
              _ = width * height := Nat.mul_comm _ _
          · exact ih _ (x + 1) y i hi2
        · rw [decodeFieldGo_skip clut width height b rest pixels x y hy hb hxy] at hi
          exact ih pixels (x + 1) y i hi

/-- Claim C10 (witness): decoding the single field byte 5 into a 1×1
region writes only index 0, which is below 1*1. -/
theorem claim10_witness : (0 : Nat) < 1 * 1 :=
  claim10 defaultClut 1 1 [5] [⟨0, 0, 0, 0⟩] 0 0 0 (by decide)

theorem foldl_preserves {α β : Type} (P : α → Prop) (f : α → β → α) (l : List β)
    (init : α) (hstep : ∀ a b, P a → P (f a b)) (hinit : P init) :
    P (l.foldl f init) := by
  induction l generalizing init with
  | nil => exact hinit
  | cons c cs ih => exact ih _ (hstep _ _ hinit)

theorem foldl_establish {α β : Type} (P : α → Prop) (f : α → β → α) (l : List β)
    (x : β) (hx : x ∈ l) (hest : ∀ a, P (f a x))
    (hstep : ∀ a b, P a → P (f a b)) : ∀ init, P (l.foldl f init) := by
  induction l with
  | nil => exact absurd hx (List.not_mem_nil x)
  | cons c cs ih =>
    intro init
    rcases List.mem_cons.mp hx with rfl | hx2
    · exact foldl_preserves P f cs (f init x) hstep (hest init)
    · exact ih hx2 (f init c)

theorem foldl_preserves_mem {α β : Type} (P : α → Prop) (f : α → β → α) (l : List β)
    (init : α) (hstep : ∀ a b, b ∈ l → P a → P (f a b)) (hinit : P init) :
    P (l.foldl f init) := by
  induction l generalizing init with
  | nil => exact hinit
  | cons c cs ih =>
    exact ih (f init c) (fun a b hb ha => hstep a b (by simp [hb]) ha)
      (hstep _ _ (by simp) hinit)

theorem getD_alpha0 (l : List Pixel) (hl : ∀ p ∈ l, p.a = 0) (i : Nat) :
    (l.getD i ⟨0, 0, 0, 0⟩).a = 0 := by
  rw [List.getD_eq_getElem?_getD]
  cases hq : l[i]? with
  | none => rfl
  | some v =>
    have hg : l.get? i = some v := by rw [List.get?_eq_getElem?]; exact hq
    simpa using hl v (List.get?_mem hg)

theorem overPix_alpha0 (s d : Pixel) (hs : s.a = 0) (hd : d.a = 0) :
    (overPix s d).a = 0 := by
  simp [overPix, hs, hd]

theorem drawImage_alpha0 (cv : Canvas) (x y w h : Nat) (src : List Pixel)
    (hsrc : ∀ p ∈ src, p.a = 0) (hcv : ∀ p ∈ cv.data, p.a = 0) :
    ∀ p ∈ (drawImage cv x y w h src).data, p.a = 0 := by
  rw [drawImage]
  refine foldl_preserves (fun c : Canvas => ∀ p ∈ c.data, p.a = 0) _ _ _ ?_ hcv
  intro c1 sy h1
  refine foldl_preserves (fun c : Canvas => ∀ p ∈ c.data, p.a = 0) _ _ _ ?_ h1
  intro c2 sx h2
  by_cases hin : x + sx < c2.width ∧ y + sy < c2.height
  · rw [if_pos hin]
    intro p hp
    rcases List.mem_or_eq_of_mem_set hp with hmem | rfl
    · exact h2 p hmem
    · exact overPix_alpha0 _ _ (getD_alpha0 src hsrc _) (getD_alpha0 c2.data h2 _)
  · rw [if_neg hin]
    exact h2

theorem allTransparent_iff (cv : Canvas) :
    allTransparent cv = true ↔ ∀ p ∈ cv.data, p.a = 0 := by
  simp [allTransparent, List.all_eq_true]

theorem computeBounds_transparent (cv : Canvas) (h : ∀ p ∈ cv.data, p.a = 0) :
    computeBounds cv = ⟨cv.width, cv.height, 0, 0⟩ := by
  rw [computeBounds]
  refine foldl_preserves (fun b : Bounds => b = ⟨cv.width, cv.height, 0, 0⟩) _ _ _ ?_ rfl
  intro b y hb
  refine foldl_preserves (fun b2 : Bounds => b2 = ⟨cv.width, cv.height, 0, 0⟩) _ _ _ ?_ hb
  intro b2 x hb2
  have hz : (pixelAt cv x y).a = 0 := getD_alpha0 cv.data h _
  rw [if_neg (by omega)]
  exact hb2

theorem trimCanvas_transparent (cv : Canvas) (h : allTransparent cv = true) :
    trimCanvas cv = (cv, 0, 0) := by
  simp only [trimCanvas]
  rw [computeBounds_transparent cv ((allTransparent_iff cv).mp h)]
  rw [if_pos (Or.inl (Nat.zero_le _))]

theorem computeBounds_attained (cv : Canvas) :
    ((computeBounds cv).minX = cv.width ∨
      ∃ px py, px < cv.width ∧ py < cv.height ∧ 0 < (pixelAt cv px py).a ∧
        px = (computeBounds cv).minX) ∧
    ((computeBounds cv).maxX = 0 ∨
      ∃ px py, px < cv.width ∧ py < cv.height ∧ 0 < (pixelAt cv px py).a ∧
        px = (computeBounds cv).maxX) ∧
    ((computeBounds cv).minY = cv.height ∨
      ∃ px py, px < cv.width ∧ py < cv.height ∧ 0 < (pixelAt cv px py).a ∧
        py = (computeBounds cv).minY) ∧
    ((computeBounds cv).maxY = 0 ∨
      ∃ px py, px < cv.width ∧ py < cv.height ∧ 0 < (pixelAt cv px py).a ∧
        py = (computeBounds cv).maxY) := by
  rw [computeBounds]
  refine foldl_preserves_mem
    (fun b : Bounds =>
      (b.minX = cv.width ∨ ∃ px py, px < cv.width ∧ py < cv.height ∧
        0 < (pixelAt cv px py).a ∧ px = b.minX) ∧
      (b.maxX = 0 ∨ ∃ px py, px < cv.width ∧ py < cv.height ∧
        0 < (pixelAt cv px py).a ∧ px = b.maxX) ∧
      (b.minY = cv.height ∨ ∃ px py, px < cv.width ∧ py < cv.height ∧
        0 < (pixelAt cv px py).a ∧ py = b.minY) ∧
      (b.maxY = 0 ∨ ∃ px py, px < cv.width ∧ py < cv.height ∧
        0 < (pixelAt cv px py).a ∧ py = b.maxY))
    _ _ _ ?_ ⟨Or.inl rfl, Or.inl rfl, Or.inl rfl, Or.inl rfl⟩
  intro b y2 hy2 hb
  refine foldl_preserves_mem
    (fun b2 : Bounds =>
      (b2.minX = cv.width ∨ ∃ px py, px < cv.width ∧ py < cv.height ∧
        0 < (pixelAt cv px py).a ∧ px = b2.minX) ∧
      (b2.maxX = 0 ∨ ∃ px py, px < cv.width ∧ py < cv.height ∧
        0 < (pixelAt cv px py).a ∧ px = b2.maxX) ∧
      (b2.minY = cv.height ∨ ∃ px py, px < cv.width ∧ py < cv.height ∧
        0 < (pixelAt cv px py).a ∧ py = b2.minY) ∧
      (b2.maxY = 0 ∨ ∃ px py, px < cv.width ∧ py < cv.height ∧
        0 < (pixelAt cv px py).a ∧ py = b2.maxY))
    _ _ _ ?_ hb
  intro b2 x2 hx2 hb2
  have hx2' : x2 < cv.width := List.mem_range.mp hx2
  have hy2' : y2 < cv.height := List.mem_range.mp hy2
  by_cases hop : 0 < (pixelAt cv x2 y2).a
  · rw [if_pos hop]
    refine ⟨?_, ?_, ?_, ?_⟩
    · show min b2.minX x2 = cv.width ∨ ∃ px py, px < cv.width ∧ py < cv.height ∧
        0 < (pixelAt cv px py).a ∧ px = min b2.minX x2
      rcases le_or_lt b2.minX x2 with hle | hlt
      · rw [min_eq_left hle]
        exact hb2.1
      · rw [min_eq_right (le_of_lt hlt)]
        exact Or.inr ⟨x2, y2, hx2', hy2', hop, rfl⟩
    · show max b2.maxX x2 = 0 ∨ ∃ px py, px < cv.width ∧ py < cv.height ∧
        0 < (pixelAt cv px py).a ∧ px = max b2.maxX x2
      rcases le_or_lt x2 b2.maxX with hle | hlt
      · rw [max_eq_left hle]
        exact hb2.2.1
      · rw [max_eq_right (le_of_lt hlt)]
        exact Or.inr ⟨x2, y2, hx2', hy2', hop, rfl⟩
    · show min b2.minY y2 = cv.height ∨ ∃ px py, px < cv.width ∧ py < cv.height ∧
        0 < (pixelAt cv px py).a ∧ py = min b2.minY y2
      rcases le_or_lt b2.minY y2 with hle | hlt
      · rw [min_eq_left hle]
        exact hb2.2.2.1
      · rw [min_eq_right (le_of_lt hlt)]
        exact Or.inr ⟨x2, y2, hx2', hy2', hop, rfl⟩
    · show max b2.maxY y2 = 0 ∨ ∃ px py, px < cv.width ∧ py < cv.height ∧
        0 < (pixelAt cv px py).a ∧ py = max b2.maxY y2
      rcases le_or_lt y2 b2.maxY with hle | hlt
      · rw [max_eq_left hle]
        exact hb2.2.2.2
      · rw [max_eq_right (le_of_lt hlt)]
        exact Or.inr ⟨x2, y2, hx2', hy2', hop, rfl⟩
  · rw [if_neg hop]
    exact hb2

/-- Claim C5 (counterexample): a 3×3 canvas whose only opaque pixel is at
(1, 1).  The minimal bounding box of the non-transparent pixels is the
single pixel (width 1), but since `maxX <= minX` the degenerate branch
of `trimCanvas` returns the **original** 3×3 canvas: the trimmed width
is 3, not 1. -/
theorem claim5_counterexample :
    0 < (pixelAt cv5 1 1).a ∧ computeBounds cv5 = ⟨1, 1, 1, 1⟩ ∧
      (trimCanvas cv5).1 = cv5 ∧ cv5.width = 3 ∧ (3 : Nat) ≠ 1 := by
  refine ⟨by decide, by decide, by decide, by decide, by decide⟩

/-- Claim C5 (amended): for a canvas with at least one opaque pixel,
`computeBounds` computes exactly the **minimal** bounding box of the
non-transparent pixels — it brackets every opaque pixel and each of its
four sides is attained by an opaque pixel — and when that box is at
least two pixels wide and two pixels tall the trimmed canvas's width and
height equal exactly the box's (in particular, trimming is a
dimension-preserving no-op when the box spans the whole canvas); but
when the box is a single column or single row (`maxX <= minX` or
`maxY <= minY`), the original canvas is returned untrimmed.  The claim
as stated also promises exact trimming for one-pixel-wide or
one-pixel-tall boxes, which the degenerate branch violates. -/
theorem claim5_amended (cv : Canvas) (x y : Nat) (hx : x < cv.width)
    (hy : y < cv.height) (ha : 0 < (pixelAt cv x y).a) :
    ((computeBounds cv).minX ≤ x ∧ x ≤ (computeBounds cv).maxX ∧
      (computeBounds cv).minY ≤ y ∧ y ≤ (computeBounds cv).maxY)
    ∧ ((∃ px py, px < cv.width ∧ py < cv.height ∧ 0 < (pixelAt cv px py).a ∧
          px = (computeBounds cv).minX) ∧
       (∃ px py, px < cv.width ∧ py < cv.height ∧ 0 < (pixelAt cv px py).a ∧
          px = (computeBounds cv).maxX) ∧
       (∃ px py, px < cv.width ∧ py < cv.height ∧ 0 < (pixelAt cv px py).a ∧
          py = (computeBounds cv).minY) ∧
       (∃ px py, px < cv.width ∧ py < cv.height ∧ 0 < (pixelAt cv px py).a ∧
          py = (computeBounds cv).maxY))
    ∧ ((computeBounds cv).minX < (computeBounds cv).maxX →
        (computeBounds cv).minY < (computeBounds cv).maxY →
        (trimCanvas cv).1.width = (computeBounds cv).maxX - (computeBounds cv).minX + 1 ∧
        (trimCanvas cv).1.height = (computeBounds cv).maxY - (computeBounds cv).minY + 1)
    ∧ ((computeBounds cv).maxX ≤ (computeBounds cv).minX ∨
        (computeBounds cv).maxY ≤ (computeBounds cv).minY →
        (trimCanvas cv).1 = cv) := by
  have hQ : (computeBounds cv).minX ≤ x ∧ x ≤ (computeBounds cv).maxX ∧
      (computeBounds cv).minY ≤ y ∧ y ≤ (computeBounds cv).maxY := by
    rw [computeBounds]
    refine foldl_establish
      (fun b : Bounds => b.minX ≤ x ∧ x ≤ b.maxX ∧ b.minY ≤ y ∧ y ≤ b.maxY)
      _ (List.range cv.height) y (List.mem_range.mpr hy) ?_ ?_ _
    · intro b
      refine foldl_establish
        (fun b2 : Bounds => b2.minX ≤ x ∧ x ≤ b2.maxX ∧ b2.minY ≤ y ∧ y ≤ b2.maxY)
        _ (List.range cv.width) x (List.mem_range.mpr hx) ?_ ?_ b
      · intro b2
        rw [if_pos ha]
        exact ⟨min_le_right _ _, le_max_right _ _, min_le_right _ _, le_max_right _ _⟩
      · intro b2 x2 hb2
        by_cases hc : 0 < (pixelAt cv x2 y).a
        · rw [if_pos hc]
          exact ⟨le_trans (min_le_left _ _) hb2.1, le_trans hb2.2.1 (le_max_left _ _),
            le_trans (min_le_left _ _) hb2.2.2.1, le_trans hb2.2.2.2 (le_max_left _ _)⟩
        · rw [if_neg hc]
          exact hb2
    · intro b y2 hb
      refine foldl_preserves
        (fun b2 : Bounds => b2.minX ≤ x ∧ x ≤ b2.maxX ∧ b2.minY ≤ y ∧ y ≤ b2.maxY)
        _ _ _ ?_ hb
      intro b2 x2 hb2
      by_cases hc : 0 < (pixelAt cv x2 y2).a
      · rw [if_pos hc]
        exact ⟨le_trans (min_le_left _ _) hb2.1, le_trans hb2.2.1 (le_max_left _ _),
          le_trans (min_le_left _ _) hb2.2.2.1, le_trans hb2.2.2.2 (le_max_left _ _)⟩
      · rw [if_neg hc]
        exact hb2
  have hA := computeBounds_attained cv
  refine ⟨hQ, ⟨?_, ?_, ?_, ?_⟩, ?_, ?_⟩
  · rcases hA.1 with heq | hatt
    · exact absurd heq (by have := hQ.1; omega)
    · exact hatt
  · rcases hA.2.1 with heq | hatt
    · exact ⟨x, y, hx, hy, ha, by have := hQ.2.1; omega⟩
    · exact hatt
  · rcases hA.2.2.1 with heq | hatt
    · exact absurd heq (by have := hQ.2.2.1; omega)
    · exact hatt
  · rcases hA.2.2.2 with heq | hatt
    · exact ⟨x, y, hx, hy, ha, by have := hQ.2.2.2; omega⟩
    · exact hatt
  · intro hxx hyy
    simp only [trimCanvas]
    rw [if_neg (by omega)]
    exact ⟨rfl, rfl⟩
  · intro hdeg
    simp only [trimCanvas]
    rw [if_pos hdeg]

/-- Claim C5 (witness for the amended theorem): a 2×2 canvas with opaque
corners; the bounding box spans the whole canvas and trimming keeps the
2×2 dimensions. -/
theorem claim5_witness :
    (trimCanvas cv5w).1.width = 2 ∧ (trimCanvas cv5w).1.height = 2 := by
  have h := claim5_amended cv5w 0 0 (by decide) (by decide) (by decide)
  have hd := h.2.2.1 (by decide) (by decide)
  constructor
  · rw [hd.1]
    decide
  · rw [hd.2]
    decide

theorem st4_render : renderRegions st4 page4 = Except.ok (canvas4, true) := rfl

theorem st4_pixels_alpha0 :
    ∀ p ∈ decodePixelData ⟨0, some [5], none⟩ ⟨2, 2, 0, 9, 0, [⟨7, 0, 0, 0⟩]⟩ defaultClut,
      p.a = 0 := by decide

theorem canvas4_alpha0 : ∀ p ∈ canvas4.data, p.a = 0 := by
  unfold canvas4
  exact drawImage_alpha0 _ 0 0 2 2 _ st4_pixels_alpha0
    (fun p hp => by rw [List.eq_of_mem_replicate hp])

/-- In state `st0` (a zero-width region carrying object data), the
render reaches the drawing step but `createImageData(0, 2)` throws
`IndexSizeError`: the render aborts and no bitmap event is emitted. -/
theorem st0_render_throws : renderPage st0 1 0 = Except.error () := rfl

/-- Claim C4 (counterexample): in the state `st4` one object contributes
pixel data (`hasContent` is true) yet the composited canvas `canvas4`
has no pixel with alpha > 0 — and `renderPage` **does** emit a bitmap
event, contradicting the claim that no event is emitted: the degenerate
branch of `trimCanvas` returns the untrimmed canvas and `renderPage`
emits once the render succeeds with `hasContent` set. -/
theorem claim4_counterexample :
    renderRegions st4 page4 = Except.ok (canvas4, true) ∧
      allTransparent canvas4 = true ∧
      renderPage st4 1 0 = Except.ok (some ⟨canvas4, 0⟩) := by
  have hT : allTransparent canvas4 = true := (allTransparent_iff _).mpr canvas4_alpha0
  refine ⟨rfl, hT, ?_⟩
  have hrp : renderPage st4 1 0 = Except.ok (some ⟨(trimCanvas canvas4).1, 0⟩) := rfl
  rw [hrp, trimCanvas_transparent canvas4 hT]

/-- Claim C4 (amended): whenever the page exists, references regions, and
the region/object loop completes without throwing (every drawn region
has nonzero width and height — `createImageData` throws `IndexSizeError`
on a zero dimension, aborting the render with no event) with at least
one object having contributed pixel data (`hasContent`), `renderPage`
**does** emit a bitmap event — even when the composited canvas contains
no pixel with alpha > 0, in which case the event carries the untrimmed
canvas returned by the degenerate branch of `trimCanvas`. -/
theorem claim4_amended (st : DecState) (pageId : Nat) (pts : Int) (page : Page)
    (res : Canvas × Bool)
    (hp : st.pages.lookup pageId = some page) (hr : ¬page.regions = [])
    (hok : renderRegions st page = Except.ok res) (hc : res.2 = true) :
    renderPage st pageId pts = Except.ok (some ⟨(trimCanvas res.1).1, pts⟩) ∧
      (allTransparent res.1 = true →
        renderPage st pageId pts = Except.ok (some ⟨res.1, pts⟩)) := by
  rcases res with ⟨cv, b⟩
  have hb : b = true := hc
  subst hb
  have hrp : renderPage st pageId pts = Except.ok (some ⟨(trimCanvas cv).1, pts⟩) := by
    simp only [renderPage, hp]
    rw [if_neg hr, hok]
    rfl
  refine ⟨hrp, ?_⟩
  intro hT
  rw [hrp, trimCanvas_transparent _ hT]

/-- Claim C4 (witness for the amended theorem): applied to the state
`st4` of the counterexample, the event is emitted with the untrimmed
canvas. -/
theorem claim4_witness : renderPage st4 1 0 = Except.ok (some ⟨canvas4, 0⟩) :=
  (claim4_amended st4 1 0 page4 (canvas4, true) rfl (by simp [page4]) rfl rfl).2
    ((allTransparent_iff _).mpr canvas4_alpha0)

theorem tryStart_spec (s : OCRSt) (h3 : s.processing = false → s.inFlight = none) :
    (tryStart s).emitted = s.emitted ∧
    (tryStart s).inFlight.toList ++ (tryStart s).queue
      = s.inFlight.toList ++ s.queue ∧
    ((tryStart s).processing = false → (tryStart s).inFlight = none) := by
  rw [tryStart]
  split_ifs with h
  · exact ⟨rfl, rfl, h3⟩
  · push_neg at h
    obtain ⟨hp, hr, hq⟩ := h
    have hif : s.inFlight = none := h3 (by
      cases hb : s.processing
      · rfl
      · exact absurd hb hp)
    cases hq2 : s.queue with
    | nil => exact absurd hq2 hq
    | cons i rest =>
      refine ⟨rfl, ?_, ?_⟩
      · rw [hif]
        rfl
      · intro hpf
        simp at hpf

theorem ocrStep_inv (s : OCRSt) (e : OCREvent) (hist done : List Nat)
    (h1 : hist = done ++ s.inFlight.toList ++ s.queue)
    (h2 : List.Sublist s.emitted done)
    (h3 : s.processing = false → s.inFlight = none) :
    ∃ done2,
      hist ++ enqueuedOf [e]
          = done2 ++ (ocrStep s e).inFlight.toList ++ (ocrStep s e).queue
        ∧ List.Sublist (ocrStep s e).emitted done2
        ∧ ((ocrStep s e).processing = false → (ocrStep s e).inFlight = none) := by
  cases e with
  | enqueue i =>
    obtain ⟨hem, hfl, hpc⟩ :=
      tryStart_spec { s with queue := s.queue ++ [i] } (fun h => h3 h)
    refine ⟨done, ?_, ?_, hpc⟩
    · show hist ++ [i] = _
      rw [List.append_assoc, ocrStep, hfl]
      show hist ++ [i] = done ++ (s.inFlight.toList ++ (s.queue ++ [i]))
      rw [h1]
      simp [List.append_assoc]
    · show List.Sublist (tryStart { s with queue := s.queue ++ [i] }).emitted done
      rw [hem]
      exact h2
  | ready =>
    obtain ⟨hem, hfl, hpc⟩ :=
      tryStart_spec { s with tReady := true } (fun h => h3 h)
    refine ⟨done, ?_, ?_, hpc⟩
    · show hist ++ [] = _
      rw [List.append_assoc, ocrStep, hfl]
      show hist ++ [] = done ++ (s.inFlight.toList ++ s.queue)
      rw [h1]
      simp [List.append_assoc]
    · show List.Sublist (tryStart { s with tReady := true }).emitted done
      rw [hem]
      exact h2
  | complete ok =>
    have he : enqueuedOf [OCREvent.complete ok] = [] := rfl
    rw [he, List.append_nil]
    rcases hif : s.inFlight with _ | i
    · have hstep : ocrStep s (OCREvent.complete ok) = s := by
        rw [ocrStep, hif]
      refine ⟨done, ?_, ?_, ?_⟩
      · rw [hstep]
        exact h1
      · rw [hstep]
        exact h2
      · rw [hstep]
        exact h3
    · have hem2 : List.Sublist
          (if ok then s.emitted ++ [i] else s.emitted) (done ++ [i]) := by
        cases ok
        · exact h2.trans (List.sublist_append_left _ _)
        · exact h2.append (List.Sublist.refl [i])
      rcases hq : s.queue with _ | ⟨j, rest⟩
      · refine ⟨done ++ [i], ?_, ?_, ?_⟩
        · rw [ocrStep, hif, hq]
          rw [h1, hif, hq]
          simp
        · rw [ocrStep, hif, hq]
          simpa using hem2
        · rw [ocrStep, hif, hq]
          intro hpf
          rfl
      · refine ⟨done ++ [i], ?_, ?_, ?_⟩
        · rw [ocrStep, hif, hq]
          rw [h1, hif, hq]
          simp
        · rw [ocrStep, hif, hq]
          simpa using hem2
        · rw [ocrStep, hif, hq]
          intro hpf
          exfalso
          have hn : s.inFlight = none := h3 hpf
          rw [hif] at hn
          exact Option.noConfusion hn


theorem enqueuedOf_cons (e : OCREvent) (evs : List OCREvent) :
    enqueuedOf (e :: evs) = enqueuedOf [e] ++ enqueuedOf evs := by
  rw [enqueuedOf, enqueuedOf, enqueuedOf]
  cases e <;> simp [List.filterMap_cons]

theorem ocrRun_inv (evs : List OCREvent) (s : OCRSt) (hist done : List Nat)
    (h1 : hist = done ++ s.inFlight.toList ++ s.queue)
    (h2 : List.Sublist s.emitted done)
    (h3 : s.processing = false → s.inFlight = none) :
    ∃ done2,
      hist ++ enqueuedOf evs
          = done2 ++ (runOCR s evs).inFlight.toList ++ (runOCR s evs).queue
        ∧ List.Sublist (runOCR s evs).emitted done2 := by
  induction evs generalizing s hist done with
  | nil =>
    refine ⟨done, ?_, h2⟩
    rw [runOCR]
    simp only [List.foldl_nil]
    rw [h1]
    simp [enqueuedOf]
  | cons e evs ih =>
    obtain ⟨d2, g1, g2, g3⟩ := ocrStep_inv s e hist done h1 h2 h3
    obtain ⟨d3, f1, f2⟩ := ih (ocrStep s e) (hist ++ enqueuedOf [e]) d2 g1 g2 g3
    refine ⟨d3, ?_, ?_⟩
    · rw [runOCR, List.foldl_cons, enqueuedOf_cons, ← List.append_assoc]
      rw [runOCR] at f1
      exact f1
    · rw [runOCR, List.foldl_cons]
      rw [runOCR] at f2
      exact f2

/-- Claim C8: subtitle events preserve FIFO enqueue order.  In the
event-loop model of `queueOCR` / `processOCRQueue` (single in-flight
recognition held in the `Option`-valued `inFlight`, drained from the
front of the queue, re-entry barred by the `processing` flag), the
emitted-items list of any run from the fresh state is a sublist of the
enqueued items in enqueue order: whenever two bitmaps are both emitted,
their events appear in the order they were enqueued, regardless of the
interleaving of completions. -/
theorem claim8 (evs : List OCREvent) :
    List.Sublist (runOCR initOCR evs).emitted (enqueuedOf evs) := by
  obtain ⟨done2, h1, h2⟩ := ocrRun_inv evs initOCR [] []
    (by rfl) (List.Sublist.refl []) (fun _ => rfl)
  rw [List.nil_append] at h1
  have hd : List.Sublist done2 (enqueuedOf evs) := by
    rw [h1]
    exact (List.sublist_append_left _ _).trans (List.sublist_append_left _ _)
  exact h2.trans hd

end DVBSub
